import Mathlib

/-!
# image-to-ascii: the quantizer and the block renderer of `src/main.c`

A shallow embedding of `map_grayscale_to_char` and `convert_to_ascii`.

* C `int` and `long long` values are integers (`Int`).  The operations of the
  renderer that can leave their range on arguments of type `int` carry their
  machine result: the counter `pixel_count++`, the index
  `y_pixel * img_width + x_pixel` and the conversion of the mean to `int` wrap
  around modulo `2 ^ 32` (`wrapInt32`), the `long long` accumulator wraps around
  modulo `2 ^ 64` (`wrapInt64`), and the conversion `(int)(block_width * 2.0)`
  gives `INT_MIN` when the product does not fit an `int` (C leaves these cases
  undefined; these are the results of the x86-64 instructions).  The other
  `int` expressions stay inside the `int` range when the three dimensions are
  of type `int` (theorem `cell_offsets_fit_int`).
* C `double` values are modelled by `Double`, a dyadic number `m * 2 ^ e`, with
  every operation rounded to 53 significant bits, ties to even (IEEE 754
  binary64, round to nearest).  Infinities, NaN and subnormals are not modelled:
  the program only divides by `255.0` and its values stay between `2 ^ (-8)`
  and `2 ^ 33`.
* The pixel buffer is a list of bytes (`Fin 256`); a null pointer is `none`.
* The function's effect on the three streams it writes (standard output,
  standard error, and the stream passed as `output_file`) is the text it
  appends to each of them.  A read outside the pixel buffer has no defined
  result in C and makes the model return `none`.
-/

namespace ImageToAscii

/-! ## Machine integers -/

/-- The largest `int`. -/
def INT_MAX : Int := 2147483647

/-- The smallest `int`. -/
def INT_MIN : Int := -2147483648

/-- The `int` that a 32-bit two's complement register holds for the integer `n`. -/
def wrapInt32 (n : Int) : Int := (n + 2147483648) % 4294967296 - 2147483648

/-- The `long long` that a 64-bit two's complement register holds for the integer `n`. -/
def wrapInt64 (n : Int) : Int :=
  (n + 9223372036854775808) % 18446744073709551616 - 9223372036854775808

/-! ## Binary64 arithmetic -/

/-- Auxiliary loop of `bitLength`, the first argument bounds the number of halvings. -/
def bitLengthAux : Nat → Nat → Nat
  | 0, _ => 0
  | fuel + 1, n => if n = 0 then 0 else bitLengthAux fuel (n / 2) + 1

/-- Number of binary digits of `n` (`0` for `0`). -/
def bitLength (n : Nat) : Nat := bitLengthAux n n

/-- A finite `double`: the number `m * 2 ^ e`. -/
structure Double where
  m : Int
  e : Int
deriving DecidableEq

/-- Round the positive number `(n / d) * 2 ^ k` to 53 significant bits, ties to even.
The result is the pair `(m, e)` standing for `m * 2 ^ e`. -/
def roundPos (n d : Nat) (k : Int) : Nat × Int :=
  let e0 : Int := (bitLength n : Int) - (bitLength d : Int) - 52
  -- choose `e` with `2 ^ 52 ≤ (n / d) / 2 ^ e < 2 ^ 53`
  let e : Int := if d * 2 ^ (52 + e0).toNat ≤ n * 2 ^ (-(52 + e0)).toNat then e0 else e0 - 1
  let N := n * 2 ^ (-e).toNat
  let D := d * 2 ^ e.toNat
  let q := N / D
  let r := N % D
  let q1 := if 2 * r < D then q else if D < 2 * r then q + 1 else if q % 2 = 0 then q else q + 1
  (q1, e + k)

/-- Round `(n / d) * 2 ^ k` to the nearest `double`. -/
def roundRatio (n d : Int) (k : Int) : Double :=
  if n = 0 ∨ d = 0 then ⟨0, 0⟩
  else
    let r := roundPos n.natAbs d.natAbs k
    ⟨Int.sign n * Int.sign d * (r.1 : Int), r.2⟩

/-- Conversion `(double) n` of an integer. -/
def Double.ofInt (n : Int) : Double := roundRatio n 1 0

/-- Product `a * b` of two doubles. -/
def Double.mul (a b : Double) : Double := roundRatio (a.m * b.m) 1 (a.e + b.e)

/-- Quotient `a / b` of two doubles (`b` nonzero). -/
def Double.div (a b : Double) : Double := roundRatio a.m b.m (a.e - b.e)

/-- The integer part of `a`: truncation toward zero. -/
def Double.trunc (a : Double) : Int :=
  if 0 ≤ a.e then a.m * 2 ^ a.e.toNat else Int.tdiv a.m (2 ^ (-a.e).toNat)

/-- Conversion `(int) a`: the integer part of `a` when it fits an `int`.  C leaves the other
case undefined; the x86-64 conversion instruction then gives `INT_MIN`. -/
def Double.toInt (a : Double) : Int :=
  if INT_MIN ≤ a.trunc ∧ a.trunc ≤ INT_MAX then a.trunc else INT_MIN

/-! ## The quantizer -/

/-- The palette `ascii_palette`, darkest character first. -/
def ascii_palette : List Char := "@#S%?*+;:,.- ".toList

/-- The expression `(int)(((double)grayscale_value / 255.0) * (palette_size - 1))`. -/
def scaled_index (grayscale_value palette_size : Int) : Int :=
  Double.toInt
    (Double.mul (Double.div (Double.ofInt grayscale_value) (Double.ofInt 255))
      (Double.ofInt (palette_size - 1)))

/-- The palette index computed by `map_grayscale_to_char`, after both clamps. -/
def palette_index (grayscale_value : Int) : Int :=
  let grayscale_value := if grayscale_value < 0 then 0 else grayscale_value
  let grayscale_value := if grayscale_value > 255 then 255 else grayscale_value
  let palette_size : Int := ascii_palette.length
  let index := scaled_index grayscale_value palette_size
  let index := if index < 0 then 0 else index
  let index := if index ≥ palette_size then palette_size - 1 else index
  index

/-- The function `map_grayscale_to_char`: the palette character at `palette_index`. -/
def map_grayscale_to_char (grayscale_value : Int) : Char :=
  ascii_palette.getD (palette_index grayscale_value).toNat (Char.ofNat 0)

/-! ## The renderer -/

/-- A `for (i = start; i < stop; ++i)` loop started at `start` that runs `n` times. -/
def loopFrom {σ : Type} (body : Int → σ → Option σ) : Int → Nat → σ → Option σ
  | _, 0, s => some s
  | start, n + 1, s => (body start s).bind (loopFrom body (start + 1) n)

/-- The loop `for (i = start; i < stop; ++i) body`, on a state of type `σ`. -/
def forLoop {σ : Type} (start stop : Int) (body : Int → σ → Option σ) (s : σ) : Option σ :=
  loopFrom body start (stop - start).toNat s

/-- The read `pixel_data[i]`, `none` outside the buffer. -/
def readPixel (pixel_data : List (Fin 256)) (i : Int) : Option Int :=
  if 0 ≤ i then (pixel_data[i.toNat]?).map (fun p => (p.val : Int)) else none

/-- The block geometry: `block_width`, `block_height` and `output_height`. -/
structure Geometry where
  block_width : Int
  block_height : Int
  output_height : Int
deriving DecidableEq

/-- Lines 79 to 91 of `convert_to_ascii`. -/
def geometry (img_width img_height output_width : Int) : Geometry :=
  let block_width := Int.tdiv img_width output_width
  let block_height := Double.toInt (Double.mul (Double.ofInt block_width) (Double.ofInt 2))
  let block_width := if block_width = 0 then 1 else block_width
  let block_height := if block_height = 0 then 1 else block_height
  let output_height := Int.tdiv img_height block_height
  ⟨block_width, block_height, output_height⟩

/-- The `int` expression `y_pixel * img_width + x_pixel` of line 126. -/
def pixelIndex (img_width y_pixel x_pixel : Int) : Int :=
  wrapInt32 (wrapInt32 (y_pixel * img_width) + x_pixel)

/-- The two inner loops of `convert_to_ascii`: `(total_brightness, pixel_count)` of the
block that starts at `(start_x, start_y)`, a `long long` and an `int`. -/
def blockTotals (pixel_data : List (Fin 256)) (img_width img_height : Int)
    (start_x start_y current_block_width current_block_height : Int) : Option (Int × Int) :=
  forLoop start_y (start_y + current_block_height) (fun y_pixel acc =>
    forLoop start_x (start_x + current_block_width) (fun x_pixel acc =>
      if 0 ≤ x_pixel ∧ x_pixel < img_width ∧ 0 ≤ y_pixel ∧ y_pixel < img_height then
        (readPixel pixel_data (pixelIndex img_width y_pixel x_pixel)).map
          (fun p => (wrapInt64 (acc.1 + p), wrapInt32 (acc.2 + 1)))
      else some acc) acc) (0, 0)

/-- The clipped block size `current_block_width` of a block that starts at `start_x`
(and `current_block_height`, with the image height and `start_y`). -/
def current_block_size (img_size block_size start : Int) : Int :=
  if start + block_size > img_size then img_size - start else block_size

/-- The body of the loop over `x_char`: `average_grayscale` of the cell `(x_char, y_char)`. -/
def average_grayscale (pixel_data : List (Fin 256)) (img_width img_height : Int)
    (block_width block_height : Int) (x_char y_char : Int) : Option Int :=
  let start_x := x_char * block_width
  let start_y := y_char * block_height
  let current_block_width := current_block_size img_width block_width start_x
  let current_block_height := current_block_size img_height block_height start_y
  (blockTotals pixel_data img_width img_height start_x start_y
      current_block_width current_block_height).map
    (fun acc => if acc.2 > 0 then wrapInt32 (Int.tdiv acc.1 acc.2) else 0)

/-- The line terminator written after each row. -/
def newline : Char := Char.ofNat 10

/-- The text written to the three streams. -/
structure Output where
  stdout : List Char
  stderr : List Char
  file : List Char
deriving DecidableEq

/-- The `%d` conversion of `printf`. -/
def fmtInt (n : Int) : List Char := (toString n).toList

/-- The progress lines printed before the loops. -/
def progressText (img_width img_height output_width : Int) (g : Geometry) : List Char :=
  "Converting image to ASCII art...\n".toList
    ++ "Original: ".toList ++ fmtInt img_width ++ "x".toList ++ fmtInt img_height
    ++ ", Output (chars): ".toList ++ fmtInt output_width ++ "x".toList ++ fmtInt g.output_height
    ++ " (approx)\n".toList
    ++ "Sampling block size: ".toList ++ fmtInt g.block_width ++ "x".toList
    ++ fmtInt g.block_height ++ " pixels\n".toList

/-- The two outer loops of `convert_to_ascii`: the text written with `fputc`. -/
def renderLoops (pixel_data : List (Fin 256)) (img_width img_height output_width : Int)
    (g : Geometry) : Option (List Char) :=
  forLoop 0 g.output_height (fun y_char file =>
    (forLoop 0 output_width (fun x_char file =>
      (average_grayscale pixel_data img_width img_height g.block_width g.block_height
          x_char y_char).map
        (fun avg => file ++ [map_grayscale_to_char avg])) file).map
      (fun file => file ++ [newline])) []

/-- The function `convert_to_ascii`.  `output_file` is `none` for a null stream. -/
def convert_to_ascii (pixel_data : Option (List (Fin 256)))
    (img_width img_height output_width : Int) (output_file : Option Unit) : Option Output :=
  if pixel_data.isNone ∨ img_width ≤ 0 ∨ img_height ≤ 0 ∨ output_width ≤ 0
      ∨ output_file.isNone then
    some ⟨[], "Error: Invalid input for ASCII conversion.\n".toList, []⟩
  else
    let g := geometry img_width img_height output_width
    (renderLoops (pixel_data.getD []) img_width img_height output_width g).map (fun file =>
      ⟨progressText img_width img_height output_width g
          ++ "ASCII art conversion complete.\n".toList, [], file⟩)

/-! ## Definitions used to state the properties -/

/-- The value of `v` clamped to `[0, 255]`. -/
def clamp255 (v : Int) : Int := max 0 (min v 255)

/-- Valid input of `convert_to_ascii`: positive dimensions, a requested width of at least
one column, and a buffer of `img_width * img_height` bytes.  The three dimensions are of
type `int`. -/
structure ValidInput (pixel_data : List (Fin 256)) (img_width img_height output_width : Int) :
    Prop where
  width_pos : 0 < img_width
  height_pos : 0 < img_height
  output_width_pos : 0 < output_width
  width_int : img_width ≤ INT_MAX
  height_int : img_height ≤ INT_MAX
  output_width_int : output_width ≤ INT_MAX
  buffer_size : (pixel_data.length : Int) = img_width * img_height

/-- The byte `pixel_data[i]` as an integer (`0` outside the buffer). -/
def pixelAt (pixel_data : List (Fin 256)) (i : Int) : Int :=
  ((pixel_data.getD i.toNat 0).val : Int)

/-- The pixels `(row, column)` that the inner loops of `convert_to_ascii` read for the cell
`(x_char, y_char)`: the loop ranges, restricted by the bounds test of the loop body. -/
def sourceBlock (img_width img_height block_width block_height x_char y_char : Int) :
    Finset (Int × Int) :=
  let start_x := x_char * block_width
  let start_y := y_char * block_height
  let current_block_width := current_block_size img_width block_width start_x
  let current_block_height := current_block_size img_height block_height start_y
  (Finset.Ico start_y (start_y + current_block_height)
      ×ˢ Finset.Ico start_x (start_x + current_block_width)).filter
    (fun p => 0 ≤ p.2 ∧ p.2 < img_width ∧ 0 ≤ p.1 ∧ p.1 < img_height)

/-- The rectangle of the specification for the cell `(x_char, y_char)`: rows
`[y_char * block_height, y_char * block_height + block_height)` and columns
`[x_char * block_width, x_char * block_width + block_width)`, intersected with the image. -/
def specBlock (img_width img_height block_width block_height x_char y_char : Int) :
    Finset (Int × Int) :=
  (Finset.Ico (y_char * block_height) (y_char * block_height + block_height)
      ×ˢ Finset.Ico (x_char * block_width) (x_char * block_width + block_width))
    ∩ (Finset.Ico 0 img_height ×ˢ Finset.Ico 0 img_width)

/-- The mean brightness of the specification: the truncated quotient of the sum of the
pixels of `specBlock` by their number, and `0` for an empty block. -/
def specMean (pixel_data : List (Fin 256)) (img_width img_height block_width block_height
    x_char y_char : Int) : Int :=
  let s := specBlock img_width img_height block_width block_height x_char y_char
  if s = ∅ then 0
  else Int.tdiv (Finset.sum s (fun p => pixelAt pixel_data (p.1 * img_width + p.2))) s.card

/-- The characters of row `y_char` of the rendering, without the line terminator. -/
def specRow (pixel_data : List (Fin 256)) (img_width img_height output_width : Int)
    (g : Geometry) (y_char : Int) : List Char :=
  (List.range output_width.toNat).map (fun (x : Nat) =>
    map_grayscale_to_char
      (specMean pixel_data img_width img_height g.block_width g.block_height (x : Int) y_char))

/-- The rows of the rendering, top to bottom. -/
def specRows (pixel_data : List (Fin 256)) (img_width img_height output_width : Int)
    (g : Geometry) : List (List Char) :=
  (List.range g.output_height.toNat).map (fun (y : Nat) =>
    specRow pixel_data img_width img_height output_width g (y : Int))

/-- The rows of characters of a rendering whose cell `(x_char, y_char)` has the mean
brightness `mean x_char y_char`. -/
def rowsOfMeans (mean : Int → Int → Int) (output_width output_height : Int) :
    List (List Char) :=
  (List.range output_height.toNat).map (fun (y : Nat) =>
    (List.range output_width.toNat).map (fun (x : Nat) =>
      map_grayscale_to_char (mean (x : Int) (y : Int))))

/-- The text of a list of rows: each row followed by a line terminator. -/
def textOfRows (rows : List (List Char)) : List Char :=
  (rows.map (fun row => row ++ [newline])).flatten

/-- The accumulators `(total_brightness, pixel_count)` of the cell `(x_char, y_char)` when
its two inner loops end: the bindings of `average_grayscale` before the division. -/
def cellTotals (pixel_data : List (Fin 256)) (img_width img_height : Int)
    (block_width block_height : Int) (x_char y_char : Int) : Option (Int × Int) :=
  let start_x := x_char * block_width
  let start_y := y_char * block_height
  let current_block_width := current_block_size img_width block_width start_x
  let current_block_height := current_block_size img_height block_height start_y
  blockTotals pixel_data img_width img_height start_x start_y
    current_block_width current_block_height

/-- The positions `(y_pixel, x_pixel)` at which the body of the inner loop runs, in order:
the two loops of `blockTotals` with a body that records its position. -/
def blockVisits (start_x start_y current_block_width current_block_height : Int) :
    Option (List (Int × Int)) :=
  forLoop start_y (start_y + current_block_height) (fun y_pixel acc =>
    forLoop start_x (start_x + current_block_width) (fun x_pixel acc =>
      some (acc ++ [(y_pixel, x_pixel)])) acc) []

/-- The positions visited by the inner loops for the cell `(x_char, y_char)`. -/
def cellVisits (img_width img_height block_width block_height x_char y_char : Int) :
    Option (List (Int × Int)) :=
  let start_x := x_char * block_width
  let start_y := y_char * block_height
  let current_block_width := current_block_size img_width block_width start_x
  let current_block_height := current_block_size img_height block_height start_y
  blockVisits start_x start_y current_block_width current_block_height

/-! ## Binary64: exact cases -/

theorem bitLengthAux_le_iff (fuel : Nat) : ∀ n k : Nat, n ≤ fuel →
    (bitLengthAux fuel n ≤ k ↔ n < 2 ^ k) := by
  induction fuel with
  | zero =>
    intro n k h
    have : n = 0 := by omega
    subst this
    simp [bitLengthAux]
  | succ f ih =>
    intro n k h
    unfold bitLengthAux
    by_cases hn : n = 0
    · subst hn; simp
    · simp only [hn, if_false]
      cases k with
      | zero => simp; omega
      | succ k =>
        have h2 : n / 2 ≤ f := by omega
        rw [Nat.add_le_add_iff_right, ih (n / 2) k h2, pow_succ]
        omega

theorem bitLength_le_iff (n k : Nat) : bitLength n ≤ k ↔ n < 2 ^ k :=
  bitLengthAux_le_iff n n k le_rfl

theorem lt_two_pow_bitLength (n : Nat) : n < 2 ^ bitLength n :=
  (bitLength_le_iff n _).1 le_rfl

theorem bitLength_pos {n : Nat} (h : 0 < n) : 0 < bitLength n := by
  by_contra hc
  have h0 : bitLength n ≤ 0 := by omega
  have := (bitLength_le_iff n 0).1 h0
  simp at this
  omega

theorem two_pow_le_of_bitLength {n : Nat} (h : 0 < n) : 2 ^ (bitLength n - 1) ≤ n := by
  by_contra hc
  have hlt : n < 2 ^ (bitLength n - 1) := by omega
  have := (bitLength_le_iff n _).2 hlt
  have := bitLength_pos h
  omega

theorem bitLength_mul_two_pow {n : Nat} (h : 0 < n) (j : Nat) :
    bitLength (n * 2 ^ j) = bitLength n + j := by
  apply le_antisymm
  · rw [bitLength_le_iff, pow_add]
    exact Nat.mul_lt_mul_of_lt_of_le (lt_two_pow_bitLength n) le_rfl (by positivity)
  · by_contra hc
    have hp := bitLength_pos h
    have h1 : bitLength (n * 2 ^ j) ≤ (bitLength n - 1) + j := by omega
    rw [bitLength_le_iff, pow_add] at h1
    have h2 := two_pow_le_of_bitLength h
    have h3 : 2 ^ (bitLength n - 1) * 2 ^ j ≤ n * 2 ^ j := Nat.mul_le_mul_right _ h2
    omega

theorem bitLength_of_bounds {n L : Nat} (h1 : 2 ^ L ≤ n) (h2 : n < 2 ^ (L + 1)) :
    bitLength n = L + 1 := by
  apply le_antisymm
  · exact (bitLength_le_iff n _).2 h2
  · by_contra hc
    have h3 : bitLength n ≤ L := by omega
    have := (bitLength_le_iff n L).1 h3
    omega

/-- A number with exactly 53 significant bits, shifted left, rounds to itself. -/
theorem roundPos_shift (M j : Nat) (k : Int) (h1 : 2 ^ 52 ≤ M) (h2 : M < 2 ^ 53) :
    roundPos (M * 2 ^ j) 1 k = (M, (j : Int) + k) := by
  have hM : 0 < M := lt_of_lt_of_le (by positivity) h1
  have hL : bitLength (M * 2 ^ j) = 53 + j := by
    rw [bitLength_mul_two_pow hM, bitLength_of_bounds h1 h2]
  have hone : bitLength 1 = 1 := by decide
  have hpos : 0 < 2 ^ j := by positivity
  unfold roundPos
  simp only [hL, hone]
  have e1 : (((53 + j : Nat) : Int) - ((1 : Nat) : Int) - 52) = (j : Int) := by push_cast; omega
  simp only [e1]
  have e2 : (52 + (j : Int)).toNat = 52 + j := by omega
  have e3 : (-(52 + (j : Int))).toNat = 0 := by omega
  have hcond : 1 * 2 ^ (52 + j) ≤ M * 2 ^ j * 2 ^ 0 := by
    rw [pow_add]; simp only [pow_zero, mul_one, one_mul]
    exact Nat.mul_le_mul_right _ h1
  simp only [e2, e3, hcond, if_true]
  have e4 : (-(j : Int)).toNat = 0 := by omega
  have e5 : ((j : Int)).toNat = j := by omega
  simp only [e4, e5, pow_zero, mul_one, one_mul]
  have hq : M * 2 ^ j / 2 ^ j = M := Nat.mul_div_cancel _ hpos
  have hr : M * 2 ^ j % 2 ^ j = 0 := Nat.mul_mod_left _ _
  simp [hq, hr, hpos]

/-- A number of at most 53 bits is represented exactly, with a 53-bit mantissa. -/
theorem roundPos_small (n : Nat) (k : Int) (h0 : 0 < n) (h1 : n < 2 ^ 53) :
    roundPos n 1 k = (n * 2 ^ (53 - bitLength n), (bitLength n : Int) - 53 + k) := by
  have hp := bitLength_pos h0
  have hle : bitLength n ≤ 53 := (bitLength_le_iff n 53).2 h1
  have hone : bitLength 1 = 1 := by decide
  have hlow := two_pow_le_of_bitLength h0
  unfold roundPos
  simp only [hone]
  have e1 : ((bitLength n : Int) - ((1 : Nat) : Int) - 52) = (bitLength n : Int) - 53 := by
    push_cast; omega
  simp only [e1]
  have e2 : (52 + ((bitLength n : Int) - 53)).toNat = bitLength n - 1 := by omega
  have e3 : (-(52 + ((bitLength n : Int) - 53))).toNat = 0 := by omega
  have hcond : 1 * 2 ^ (bitLength n - 1) ≤ n * 2 ^ 0 := by simpa using hlow
  simp only [e2, e3, hcond, if_true]
  have e4 : (-((bitLength n : Int) - 53)).toNat = 53 - bitLength n := by omega
  have e5 : ((bitLength n : Int) - 53).toNat = 0 := by omega
  simp only [e4, e5, pow_zero, mul_one, Nat.div_one, Nat.mod_one]
  simp

theorem mantissa_bounds (n : Nat) (h0 : 0 < n) (h1 : n < 2 ^ 53) :
    2 ^ 52 ≤ n * 2 ^ (53 - bitLength n) ∧ n * 2 ^ (53 - bitLength n) < 2 ^ 53 := by
  have hp := bitLength_pos h0
  have hle : bitLength n ≤ 53 := (bitLength_le_iff n 53).2 h1
  have hlow := two_pow_le_of_bitLength h0
  have hup := lt_two_pow_bitLength n
  constructor
  · calc 2 ^ 52 = 2 ^ (bitLength n - 1) * 2 ^ (53 - bitLength n) := by
          rw [← pow_add]; congr 1; omega
      _ ≤ n * 2 ^ (53 - bitLength n) := Nat.mul_le_mul_right _ hlow
  · calc n * 2 ^ (53 - bitLength n) < 2 ^ bitLength n * 2 ^ (53 - bitLength n) :=
          Nat.mul_lt_mul_of_lt_of_le hup le_rfl (by positivity)
      _ = 2 ^ 53 := by rw [← pow_add]; congr 1; omega

theorem ofInt_pos (n : Nat) (h0 : 0 < n) (h1 : n < 2 ^ 53) :
    Double.ofInt (n : Int) = ⟨((n * 2 ^ (53 - bitLength n) : Nat) : Int), (bitLength n : Int) - 53⟩ := by
  unfold Double.ofInt roundRatio
  have hn : ¬ ((n : Int) = 0 ∨ (1 : Int) = 0) := by omega
  simp only [hn, if_false, Int.natAbs_ofNat, Int.natAbs_one, roundPos_small n 0 h0 h1]
  have hs : Int.sign (n : Int) = 1 := Int.sign_eq_one_of_pos (by omega)
  simp [hs]

/-- The product `(double) n * 2.0` for `0 ≤ n < 2 ^ 53`, converted back to an integer. -/
theorem trunc_mul_two (n : Int) (h0 : 0 ≤ n) (h1 : n < 2 ^ 53) :
    Double.trunc (Double.mul (Double.ofInt n) (Double.ofInt 2)) = 2 * n := by
  have htwo : Double.ofInt 2 = ⟨2 ^ 52, -51⟩ := by decide
  rcases eq_or_lt_of_le h0 with hz | hpos
  · subst hz
    decide
  · obtain ⟨m, rfl⟩ := Int.eq_ofNat_of_zero_le h0
    have hm0 : 0 < m := by omega
    have hm1 : m < 2 ^ 53 := by exact_mod_cast h1
    have hb := mantissa_bounds m hm0 hm1
    have hp := bitLength_pos hm0
    have hle : bitLength m ≤ 53 := (bitLength_le_iff m 53).2 hm1
    rw [ofInt_pos m hm0 hm1, htwo]
    unfold Double.mul roundRatio
    simp only []
    have hM : 0 < m * 2 ^ (53 - bitLength m) := lt_of_lt_of_le (by positivity) hb.1
    have hne : ¬ ((((m * 2 ^ (53 - bitLength m) : Nat) : Int) * 2 ^ 52 = 0) ∨ (1 : Int) = 0) := by
      have : (0 : Int) < ((m * 2 ^ (53 - bitLength m) : Nat) : Int) * 2 ^ 52 := by positivity
      omega
    have hab : (((m * 2 ^ (53 - bitLength m) : Nat) : Int) * 2 ^ 52).natAbs
        = (m * 2 ^ (53 - bitLength m)) * 2 ^ 52 := by
      rw [Int.natAbs_mul, Int.natAbs_ofNat]; rfl
    have hs : Int.sign (((m * 2 ^ (53 - bitLength m) : Nat) : Int) * 2 ^ 52) = 1 :=
      Int.sign_eq_one_of_pos (by positivity)
    simp only [hne, if_false, hab, Int.natAbs_one, roundPos_shift _ 52 _ hb.1 hb.2, hs,
      Int.sign_one, one_mul]
    unfold Double.trunc
    simp only []
    by_cases he : (0 : Int) ≤ ((52 : Nat) : Int) + ((bitLength m : Int) - 53 + -51)
    · simp only [he, if_true]
      have hx : (((52 : Nat) : Int) + ((bitLength m : Int) - 53 + -51)).toNat = bitLength m - 52 := by
        omega
      rw [hx]
      have : (53 - bitLength m) + (bitLength m - 52) = 1 := by omega
      push_cast
      rw [mul_assoc, ← pow_add, this]
      ring
    · simp only [he, if_false]
      have hx : (-(((52 : Nat) : Int) + ((bitLength m : Int) - 53 + -51))).toNat = 52 - bitLength m := by
        omega
      rw [hx]
      have : 53 - bitLength m = (52 - bitLength m) + 1 := by omega
      rw [this]
      push_cast
      have hpw : (0 : Int) < 2 ^ (52 - bitLength m) := by positivity
      rw [Int.tdiv_eq_ediv (by positivity) (le_of_lt hpw)]
      rw [pow_succ, ← mul_assoc, mul_right_comm]
      rw [Int.mul_ediv_cancel _ (ne_of_gt hpw)]
      ring

/-- The conversion `(int)(n * 2.0)` for an `int` `n ≥ 0`: the double of `n` when it fits. -/
theorem toInt_mul_two (n : Int) (h0 : 0 ≤ n) (h1 : n < 2 ^ 53) :
    Double.toInt (Double.mul (Double.ofInt n) (Double.ofInt 2))
      = if 2 * n ≤ INT_MAX then 2 * n else INT_MIN := by
  unfold Double.toInt
  rw [trunc_mul_two n h0 h1]
  unfold INT_MIN INT_MAX
  split_ifs <;> omega

/-! ## Facts on the quantizer -/

set_option maxRecDepth 100000 in
theorem scaled_index_table :
    ∀ c : Fin 256, scaled_index (c.val : Int) 13 = ((c.val * 12 / 255 : Nat) : Int) := by
  decide!

theorem scaled_index_eq (c : Int) (h0 : 0 ≤ c) (h1 : c ≤ 255) :
    scaled_index c 13 = c * 12 / 255 := by
  have h := scaled_index_table ⟨c.toNat, by omega⟩
  have hc : ((c.toNat : Nat) : Int) = c := Int.toNat_of_nonneg h0
  simp only [hc] at h
  rw [h]
  omega

theorem ascii_palette_length : (ascii_palette.length : Int) = 13 := by decide

theorem clamp255_bounds (v : Int) : 0 ≤ clamp255 v ∧ clamp255 v ≤ 255 := by
  unfold clamp255
  omega

theorem palette_index_eq (v : Int) : palette_index v = clamp255 v * 12 / 255 := by
  unfold palette_index clamp255
  simp only [ascii_palette_length]
  by_cases h1 : v < 0
  · have e : scaled_index 0 13 = 0 := by rw [scaled_index_eq 0 (by omega) (by omega)]; rfl
    simp [h1, e]
    omega
  · by_cases h2 : v > 255
    · have e : scaled_index 255 13 = 12 := by
        rw [scaled_index_eq 255 (by omega) (by omega)]; rfl
      simp [h1, h2, e]
      omega
    · have e := scaled_index_eq v (by omega) (by omega)
      simp only [h1, h2, if_false, e]
      have hm : max 0 (min v 255) = v := by omega
      rw [hm]
      split_ifs <;> omega

theorem palette_index_bounds (v : Int) : 0 ≤ palette_index v ∧ palette_index v ≤ 12 := by
  rw [palette_index_eq]
  unfold clamp255
  omega

theorem palette_getElem?_index (v : Int) :
    ascii_palette[(palette_index v).toNat]? = some (map_grayscale_to_char v) := by
  unfold map_grayscale_to_char
  have h := palette_index_bounds v
  have hlt : (palette_index v).toNat < ascii_palette.length := by
    have : ascii_palette.length = 13 := by decide
    omega
  rw [List.getD_eq_getElem _ _ hlt, List.getElem?_eq_getElem hlt]

theorem map_grayscale_to_char_mem (v : Int) : map_grayscale_to_char v ∈ ascii_palette := by
  have h := palette_getElem?_index v
  rw [List.getElem?_eq_some] at h
  obtain ⟨hlt, he⟩ := h
  rw [← he]
  exact List.getElem_mem _

theorem exact_floor_eq (c : Int) : ⌊(c : ℚ) * 12 / 255⌋ = c * 12 / 255 := by
  have h : (c : ℚ) * 12 / 255 = ((c * 12 : Int) : ℚ) / ((255 : Nat) : ℚ) := by push_cast; ring
  rw [h, Rat.floor_intCast_div_natCast]
  rfl

/-! ## The block geometry -/

theorem geometry_eq (w h ow : Int) (hw : 0 < w) (hwi : w ≤ INT_MAX) (how : 0 < ow) :
    (geometry w h ow).block_width = (if w / ow = 0 then 1 else w / ow)
      ∧ (geometry w h ow).block_height
          = (if w / ow = 0 then 1 else if 2 * (w / ow) ≤ INT_MAX then 2 * (w / ow) else INT_MIN)
      ∧ (geometry w h ow).output_height = Int.tdiv h (geometry w h ow).block_height := by
  have hwi2 : w ≤ 2147483647 := hwi
  have hq0 : 0 ≤ w / ow := Int.ediv_nonneg (le_of_lt hw) (le_of_lt how)
  have hqw : w / ow ≤ w := Int.ediv_le_self _ (le_of_lt hw)
  have hbh : (geometry w h ow).block_height
      = (if w / ow = 0 then 1 else if 2 * (w / ow) ≤ INT_MAX then 2 * (w / ow) else INT_MIN) := by
    unfold geometry
    simp only [Int.tdiv_eq_ediv (le_of_lt hw) (le_of_lt how)]
    rw [toInt_mul_two (w / ow) hq0 (by norm_num; omega)]
    have hmax : INT_MAX = 2147483647 := rfl
    have hmin : INT_MIN = -2147483648 := rfl
    split_ifs <;> omega
  refine ⟨?_, hbh, rfl⟩
  unfold geometry
  simp only [Int.tdiv_eq_ediv (le_of_lt hw) (le_of_lt how)]

theorem tdiv_int_min (h : Int) (hh : 0 < h) (hhi : h ≤ INT_MAX) : Int.tdiv h INT_MIN = 0 := by
  have hhi2 : h ≤ 2147483647 := hhi
  have e : INT_MIN = -2147483648 := rfl
  rw [e, Int.tdiv_neg, Int.tdiv_eq_ediv (le_of_lt hh) (by norm_num),
    Int.ediv_eq_zero_of_lt (le_of_lt hh) (by omega)]
  rfl

/-- The facts on the geometry that hold for all dimensions of type `int`, also when
`(int)(block_width * 2.0)` is out of range. -/
theorem geometry_basic (w h ow : Int) (hw : 0 < w) (hwi : w ≤ INT_MAX) (how : 0 < ow)
    (hh : 0 < h) (hhi : h ≤ INT_MAX) :
    0 < (geometry w h ow).block_width
      ∧ 0 ≤ (geometry w h ow).output_height
      ∧ (0 < (geometry w h ow).output_height → 0 < (geometry w h ow).block_height)
      ∧ ((geometry w h ow).block_height < 0 → (geometry w h ow).output_height = 0)
      ∧ (0 < (geometry w h ow).block_height →
          (geometry w h ow).output_height = h / (geometry w h ow).block_height
            ∧ (geometry w h ow).output_height * (geometry w h ow).block_height ≤ h)
      ∧ (ow ≤ w → (geometry w h ow).block_width = w / ow
          ∧ ow * (geometry w h ow).block_width ≤ w)
      ∧ (ow ≤ w → 2 * (w / ow) ≤ INT_MAX → (geometry w h ow).block_height = 2 * (w / ow))
      ∧ (ow ≤ w → INT_MAX < 2 * (w / ow) → (geometry w h ow).block_height = INT_MIN)
      ∧ (w < ow → (geometry w h ow).block_width = 1 ∧ (geometry w h ow).block_height = 1) := by
  obtain ⟨hbw, hbh, hoh⟩ := geometry_eq w h ow hw hwi how
  have hq0 : 0 ≤ w / ow := Int.ediv_nonneg (le_of_lt hw) (le_of_lt how)
  have hmul : ow * (w / ow) ≤ w := Int.mul_ediv_self_le (ne_of_gt how)
  have hzero : w / ow = 0 ↔ w < ow := by
    constructor
    · intro hz
      by_contra hc
      have : 1 ≤ w / ow := by
        rw [Int.le_ediv_iff_mul_le how]; omega
      omega
    · intro hlt
      exact Int.ediv_eq_zero_of_lt (le_of_lt hw) hlt
  have hmin : INT_MIN = -2147483648 := rfl
  have hmax : INT_MAX = 2147483647 := rfl
  rw [hoh, hbw, hbh]
  by_cases hz : w / ow = 0
  · have hlt := hzero.1 hz
    simp only [hz, if_true]
    rw [Int.tdiv_eq_ediv (le_of_lt hh) (by omega)]
    refine ⟨by omega, by omega, by omega, by omega, ?_, by omega, by omega, by omega, ?_⟩
    · intro _
      exact ⟨rfl, by omega⟩
    · intro _
      exact ⟨trivial, trivial⟩
  · have hle : ow ≤ w := by
      by_contra hc
      exact hz (hzero.2 (by omega))
    simp only [hz, if_false]
    by_cases hfit : 2 * (w / ow) ≤ INT_MAX
    · simp only [hfit, if_true]
      have hpos : 0 < 2 * (w / ow) := by omega
      rw [Int.tdiv_eq_ediv (le_of_lt hh) (le_of_lt hpos)]
      refine ⟨by omega, Int.ediv_nonneg (le_of_lt hh) (le_of_lt hpos), fun _ => hpos,
        by omega, ?_, ?_, ?_, by omega, by omega⟩
      · intro _
        refine ⟨rfl, ?_⟩
        rw [mul_comm]
        exact Int.mul_ediv_self_le (ne_of_gt hpos)
      · intro _
        exact ⟨trivial, hmul⟩
      · intro _ _
        trivial
    · simp only [hfit, if_false]
      rw [tdiv_int_min h hh hhi]
      refine ⟨by omega, le_rfl, by omega, fun _ => rfl, fun hneg => absurd hneg (by omega),
        ?_, fun _ hf => hf.elim, ?_, fun hlt => absurd hlt (by omega)⟩
      · intro _
        exact ⟨trivial, hmul⟩
      · intro _ _
        trivial

/-- The facts on the geometry when the grid has at least one row. -/
theorem geometry_facts (px : List (Fin 256)) (w h ow : Int) (hv : ValidInput px w h ow)
    (hoh : 0 < (geometry w h ow).output_height) :
    0 < (geometry w h ow).block_width ∧ 0 < (geometry w h ow).block_height
      ∧ 0 ≤ (geometry w h ow).output_height
      ∧ (geometry w h ow).output_height = h / (geometry w h ow).block_height
      ∧ (geometry w h ow).output_height * (geometry w h ow).block_height ≤ h
      ∧ (ow ≤ w → (geometry w h ow).block_width = w / ow
          ∧ (geometry w h ow).block_height = 2 * (w / ow)
          ∧ ow * (geometry w h ow).block_width ≤ w)
      ∧ (w < ow → (geometry w h ow).block_width = 1 ∧ (geometry w h ow).block_height = 1) := by
  obtain ⟨hbw, hoh0, hpos, _, hdiv, hle, hfit, hover, hgt⟩ :=
    geometry_basic w h ow hv.width_pos hv.width_int hv.output_width_pos hv.height_pos
      hv.height_int
  have hbh := hpos hoh
  refine ⟨hbw, hbh, hoh0, (hdiv hbh).1, (hdiv hbh).2, ?_, hgt⟩
  intro hc
  refine ⟨(hle hc).1, ?_, (hle hc).2⟩
  by_cases hf : 2 * (w / ow) ≤ INT_MAX
  · exact hfit hc hf
  · have := hover hc (by omega)
    have hmin : INT_MIN = -2147483648 := rfl
    omega

/-! ## The text of a list of rows -/

theorem textOfRows_cons (row : List Char) (rows : List (List Char)) :
    textOfRows (row :: rows) = row ++ newline :: textOfRows rows := by
  simp [textOfRows]

/-- In a text whose rows all have `m` characters, the character of row `y`, column `x`
stands at offset `y * (m + 1) + x`. -/
theorem textOfRows_getElem? (m : Nat) :
    ∀ (rows : List (List Char)), (∀ row ∈ rows, row.length = m) →
      ∀ (y x : Nat), x < m →
        (textOfRows rows)[y * (m + 1) + x]? = (rows[y]?).bind (fun row => row[x]?) := by
  intro rows
  induction rows with
  | nil =>
    intro _ y x _
    simp [textOfRows]
  | cons row rows ih =>
    intro hlen y x hx
    have hrow : row.length = m := hlen row (List.mem_cons_self _ _)
    rw [textOfRows_cons]
    cases y with
    | zero =>
      simp only [Nat.zero_mul, Nat.zero_add, List.getElem?_cons_zero, Option.some_bind]
      rw [List.getElem?_append_left (by omega)]
    | succ y =>
      have hidx : (y + 1) * (m + 1) + x = row.length + (1 + (y * (m + 1) + x)) := by
        rw [hrow]; ring
      rw [hidx, List.getElem?_append_right (by omega)]
      simp only [Nat.add_sub_cancel_left, List.getElem?_cons_succ]
      have hone : 1 + (y * (m + 1) + x) = (y * (m + 1) + x) + 1 := by ring
      rw [hone, List.getElem?_cons_succ]
      exact ih (fun r hr => hlen r (List.mem_cons_of_mem _ hr)) y x hx

theorem mem_textOfRows {rows : List (List Char)} {ch : Char} (h : ch ∈ textOfRows rows)
    (hn : ch ≠ newline) : ∃ row ∈ rows, ch ∈ row := by
  unfold textOfRows at h
  rw [List.mem_flatten] at h
  obtain ⟨l, hl, hch⟩ := h
  rw [List.mem_map] at hl
  obtain ⟨row, hrow, rfl⟩ := hl
  rw [List.mem_append] at hch
  rcases hch with hch | hch
  · exact ⟨row, hrow, hch⟩
  · simp at hch
    exact absurd hch hn

theorem specRow_length (px : List (Fin 256)) (w h ow : Int) (g : Geometry) (y : Int) :
    (specRow px w h ow g y).length = ow.toNat := by
  simp [specRow]

theorem mem_specRows {px : List (Fin 256)} {w h ow : Int} {g : Geometry} {row : List Char}
    (hr : row ∈ specRows px w h ow g) :
    ∃ y : Int, 0 ≤ y ∧ y < g.output_height ∧ row = specRow px w h ow g y := by
  unfold specRows at hr
  rw [List.mem_map] at hr
  obtain ⟨k, hk, rfl⟩ := hr
  rw [List.mem_range] at hk
  exact ⟨(k : Int), by omega, by omega, rfl⟩

/-- The character of the rendering at row `y`, column `x`. -/
theorem specText_getElem? (px : List (Fin 256)) (w h ow : Int) (g : Geometry) (x y : Int)
    (hx0 : 0 ≤ x) (hx : x < ow) (hy0 : 0 ≤ y) (hy : y < g.output_height) :
    (textOfRows (specRows px w h ow g))[(y * (ow + 1) + x).toNat]?
      = some (map_grayscale_to_char (specMean px w h g.block_width g.block_height x y)) := by
  have hidx : (y * (ow + 1) + x).toNat = y.toNat * (ow.toNat + 1) + x.toNat := by
    have h1 : 0 ≤ y * (ow + 1) := mul_nonneg hy0 (by omega)
    zify
    rw [Int.toNat_of_nonneg (by omega), Int.toNat_of_nonneg hy0, Int.toNat_of_nonneg hx0,
      Int.toNat_of_nonneg (by omega : 0 ≤ ow)]
  rw [hidx, textOfRows_getElem? ow.toNat _
    (fun row hr => by
      obtain ⟨y', _, _, rfl⟩ := mem_specRows hr
      exact specRow_length px w h ow g y') _ _ (by omega)]
  have hy' : y.toNat < g.output_height.toNat := by omega
  have hx' : x.toNat < ow.toNat := by omega
  simp only [specRows, specRow, List.getElem?_map, List.getElem?_range hy',
    List.getElem?_range hx', Option.map_some', Option.some_bind,
    Int.toNat_of_nonneg hy0, Int.toNat_of_nonneg hx0]

/-! ## Machine integers: when nothing wraps -/

theorem wrapInt32_eq_self (n : Int) (h1 : INT_MIN ≤ n) (h2 : n ≤ INT_MAX) : wrapInt32 n = n := by
  have e1 : INT_MIN = -2147483648 := rfl
  have e2 : INT_MAX = 2147483647 := rfl
  unfold wrapInt32
  omega

theorem wrapInt32_add_left (u v : Int) : wrapInt32 (wrapInt32 u + v) = wrapInt32 (u + v) := by
  unfold wrapInt32
  omega

theorem wrapInt32_idem (n : Int) : wrapInt32 (wrapInt32 n) = wrapInt32 n := by
  unfold wrapInt32
  omega

theorem wrapInt32_range (n : Int) : INT_MIN ≤ wrapInt32 n ∧ wrapInt32 n ≤ INT_MAX := by
  have e1 : INT_MIN = -2147483648 := rfl
  have e2 : INT_MAX = 2147483647 := rfl
  unfold wrapInt32
  omega

theorem wrapInt64_eq_self (n : Int) (h1 : -9223372036854775808 ≤ n)
    (h2 : n ≤ 9223372036854775807) : wrapInt64 n = n := by
  unfold wrapInt64
  omega

theorem wrapInt64_add_left (u v : Int) : wrapInt64 (wrapInt64 u + v) = wrapInt64 (u + v) := by
  unfold wrapInt64
  omega

theorem wrapInt64_idem (n : Int) : wrapInt64 (wrapInt64 n) = wrapInt64 n := by
  unfold wrapInt64
  omega

/-! ## The loops -/

theorem sum_Ico_succ_left (f : Int → Int) (start : Int) (n : Nat) :
    Finset.sum (Finset.Ico start (start + ((n + 1 : Nat) : Int))) f
      = f start + Finset.sum (Finset.Ico (start + 1) (start + 1 + (n : Int))) f := by
  have hset : Finset.Ico start (start + ((n + 1 : Nat) : Int))
      = insert start (Finset.Ico (start + 1) (start + 1 + (n : Int))) := by
    ext i
    simp only [Finset.mem_Ico, Finset.mem_insert]
    push_cast
    omega
  have hnot : start ∉ Finset.Ico (start + 1) (start + 1 + (n : Int)) := by
    simp only [Finset.mem_Ico]
    omega
  rw [hset, Finset.sum_insert hnot]

/-- A loop whose body adds `a i` to the `long long` accumulator and `b i` to the `int`
counter computes the two sums, each in its register. -/
theorem loopFrom_sum (body : Int → Int × Int → Option (Int × Int)) (a b : Int → Int)
    (hb : ∀ i acc, wrapInt64 acc.1 = acc.1 → wrapInt32 acc.2 = acc.2 →
      body i acc = some (wrapInt64 (acc.1 + a i), wrapInt32 (acc.2 + b i))) :
    ∀ (n : Nat) (start : Int) (acc : Int × Int),
      wrapInt64 acc.1 = acc.1 → wrapInt32 acc.2 = acc.2 →
      loopFrom body start n acc
        = some (wrapInt64 (acc.1 + Finset.sum (Finset.Ico start (start + (n : Int))) a),
            wrapInt32 (acc.2 + Finset.sum (Finset.Ico start (start + (n : Int))) b)) := by
  intro n
  induction n with
  | zero =>
    intro start acc h1 h2
    simp only [loopFrom, Nat.cast_zero, add_zero, Finset.Ico_self, Finset.sum_empty, h1, h2]
  | succ n ih =>
    intro start acc h1 h2
    rw [loopFrom, hb start acc h1 h2, Option.some_bind,
      ih (start + 1) _ (wrapInt64_idem _) (wrapInt32_idem _), sum_Ico_succ_left,
      sum_Ico_succ_left]
    simp only [wrapInt64_add_left, wrapInt32_add_left, add_assoc]

theorem forLoop_sum (body : Int → Int × Int → Option (Int × Int)) (a b : Int → Int)
    (hb : ∀ i acc, wrapInt64 acc.1 = acc.1 → wrapInt32 acc.2 = acc.2 →
      body i acc = some (wrapInt64 (acc.1 + a i), wrapInt32 (acc.2 + b i)))
    (start stop : Int) (acc : Int × Int) (h1 : wrapInt64 acc.1 = acc.1)
    (h2 : wrapInt32 acc.2 = acc.2) :
    forLoop start stop body acc
      = some (wrapInt64 (acc.1 + Finset.sum (Finset.Ico start stop) a),
          wrapInt32 (acc.2 + Finset.sum (Finset.Ico start stop) b)) := by
  unfold forLoop
  rw [loopFrom_sum body a b hb _ _ _ h1 h2]
  have hset : Finset.Ico start (start + (((stop - start).toNat : Nat) : Int))
      = Finset.Ico start stop := by
    ext i
    simp only [Finset.mem_Ico]
    omega
  rw [hset]

/-- A loop one of whose steps fails on every state fails. -/
theorem loopFrom_none {σ : Type} (body : Int → σ → Option σ) :
    ∀ (n : Nat) (start : Int) (s : σ) (k : Nat), k < n →
      (∀ t, body (start + (k : Int)) t = none) → loopFrom body start n s = none := by
  intro n
  induction n with
  | zero =>
    intro start s k hk _
    omega
  | succ n ih =>
    intro start s k hk hnone
    rw [loopFrom]
    cases k with
    | zero =>
      have := hnone s
      simp only [Nat.cast_zero, add_zero] at this
      rw [this]
      rfl
    | succ k =>
      cases hbody : body start s with
      | none => rfl
      | some t =>
        rw [Option.some_bind]
        apply ih (start + 1) t k (by omega)
        intro u
        have := hnone u
        have e : start + 1 + (k : Int) = start + ((k + 1 : Nat) : Int) := by
          push_cast; ring
        rw [e]
        exact this

theorem forLoop_none {σ : Type} (body : Int → σ → Option σ) (start stop : Int) (s : σ)
    (i : Int) (h1 : start ≤ i) (h2 : i < stop) (hnone : ∀ t, body i t = none) :
    forLoop start stop body s = none := by
  unfold forLoop
  apply loopFrom_none body _ start s (i - start).toNat (by omega)
  intro t
  have e : start + (((i - start).toNat : Nat) : Int) = i := by omega
  rw [e]
  exact hnone t

/-- A property of the state that every step of a loop preserves holds when the loop ends. -/
theorem loopFrom_invariant {σ : Type} (body : Int → σ → Option σ) (P : σ → Prop)
    (hstep : ∀ i s t, P s → body i s = some t → P t) :
    ∀ (n : Nat) (start : Int) (s t : σ), P s → loopFrom body start n s = some t → P t := by
  intro n
  induction n with
  | zero =>
    intro start s t hs hrun
    simp only [loopFrom, Option.some.injEq] at hrun
    rw [← hrun]
    exact hs
  | succ n ih =>
    intro start s t hs hrun
    rw [loopFrom] at hrun
    cases hbody : body start s with
    | none =>
      rw [hbody] at hrun
      simp at hrun
    | some u =>
      rw [hbody, Option.some_bind] at hrun
      exact ih (start + 1) u t (hstep start s u hs hbody) hrun

/-- A loop whose body appends `seg i` to a list appends the segments in order. -/
theorem loopFrom_append_list {α : Type} (body : Int → List α → Option (List α))
    (seg : Int → List α) (hb : ∀ i s, body i s = some (s ++ seg i)) :
    ∀ (n : Nat) (start : Int) (s : List α),
      loopFrom body start n s
        = some (s ++ ((List.range n).map
            (fun (k : Nat) => seg (start + (k : Int)))).flatten) := by
  intro n
  induction n with
  | zero =>
    intro start s
    simp [loopFrom]
  | succ n ih =>
    intro start s
    rw [loopFrom, hb, Option.some_bind, ih, List.range_succ_eq_map]
    simp only [List.map_cons, List.map_map, List.flatten_cons, List.append_assoc]
    congr 3
    · simp
    · congr 1
      apply List.map_congr_left
      intro k _
      simp only [Function.comp]
      congr 1
      push_cast
      omega

theorem forLoop_append {α : Type} (body : Int → List α → Option (List α))
    (seg : Int → List α) (hb : ∀ i s, body i s = some (s ++ seg i))
    (start stop : Int) (s : List α) :
    forLoop start stop body s
      = some (s ++ ((List.range (stop - start).toNat).map
          (fun (k : Nat) => seg (start + (k : Int)))).flatten) :=
  loopFrom_append_list body seg hb _ _ _

theorem flatten_map_singleton {α β : Type} (f : α → β) (l : List α) :
    (l.map (fun a => [f a])).flatten = l.map f := by
  induction l with
  | nil => rfl
  | cons a l ih => simp [ih]

theorem readPixel_eq (pixel_data : List (Fin 256)) (i : Int) (h0 : 0 ≤ i)
    (h1 : i < (pixel_data.length : Int)) :
    readPixel pixel_data i = some (pixelAt pixel_data i) := by
  unfold readPixel pixelAt
  have hlt : i.toNat < pixel_data.length := by omega
  simp [h0, List.getD_eq_getElem _ _ hlt, List.getElem?_eq_getElem hlt]

theorem index_in_bounds (w h x y : Int) (hx0 : 0 ≤ x) (hx : x < w) (hy0 : 0 ≤ y) (hy : y < h) :
    0 ≤ y * w + x ∧ y * w + x < w * h := by
  have h1 : 0 ≤ y * w := mul_nonneg hy0 (by omega)
  have h2 : (y + 1) * w ≤ h * w := Int.mul_le_mul_of_nonneg_right (by omega) (by omega)
  have h3 : (y + 1) * w = y * w + w := by ring
  have h4 : h * w = w * h := mul_comm _ _
  omega

/-- Inside an image of at most `2 ^ 31` pixels the `int` index is the exact one. -/
theorem pixelIndex_eq (w h x y : Int) (hfit : w * h ≤ 2147483648) (hx0 : 0 ≤ x) (hx : x < w)
    (hy0 : 0 ≤ y) (hy : y < h) : pixelIndex w y x = y * w + x := by
  have hb := index_in_bounds w h x y hx0 hx hy0 hy
  have h1 : 0 ≤ y * w := mul_nonneg hy0 (by omega)
  unfold pixelIndex wrapInt32
  omega

/-! ## One cell -/

theorem sourceBlock_eq_specBlock (w h bw bh x y : Int) :
    sourceBlock w h bw bh x y = specBlock w h bw bh x y := by
  ext ⟨r, c⟩
  simp only [sourceBlock, specBlock, current_block_size, Finset.mem_filter, Finset.mem_inter,
    Finset.mem_product, Finset.mem_Ico]
  split_ifs <;> omega

theorem mem_specBlock (w h bw bh x y r c : Int) :
    (r, c) ∈ specBlock w h bw bh x y ↔
      (y * bh ≤ r ∧ r < y * bh + bh) ∧ (x * bw ≤ c ∧ c < x * bw + bw)
        ∧ (0 ≤ r ∧ r < h) ∧ (0 ≤ c ∧ c < w) := by
  simp only [specBlock, Finset.mem_inter, Finset.mem_product, Finset.mem_Ico]
  tauto

theorem mem_sourceBlock (w h bw bh x y r c : Int) :
    (r, c) ∈ sourceBlock w h bw bh x y ↔
      (y * bh ≤ r ∧ r < y * bh + bh) ∧ (x * bw ≤ c ∧ c < x * bw + bw)
        ∧ (0 ≤ r ∧ r < h) ∧ (0 ≤ c ∧ c < w) := by
  rw [sourceBlock_eq_specBlock, mem_specBlock]

theorem pixelAt_bounds (px : List (Fin 256)) (i : Int) : 0 ≤ pixelAt px i ∧ pixelAt px i ≤ 255 := by
  unfold pixelAt
  have := (px.getD i.toNat 0).isLt
  omega

theorem card_le_of_subset_image (S : Finset (Int × Int)) (w h : Int)
    (hS : S ⊆ Finset.Ico 0 h ×ˢ Finset.Ico 0 w) (hw : 0 ≤ w) (hh : 0 ≤ h) :
    (S.card : Int) ≤ w * h := by
  have h1 := Finset.card_le_card hS
  rw [Finset.card_product, Int.card_Ico, Int.card_Ico] at h1
  have h2 : ((S.card : Nat) : Int) ≤ (((h - 0).toNat * (w - 0).toNat : Nat) : Int) := by
    exact_mod_cast h1
  push_cast at h2
  rw [Int.toNat_of_nonneg (by omega), Int.toNat_of_nonneg (by omega)] at h2
  rw [mul_comm w h]
  simpa using h2

theorem sum_pixels_bounds (px : List (Fin 256)) (w : Int) (S : Finset (Int × Int)) :
    0 ≤ Finset.sum S (fun p => pixelAt px (p.1 * w + p.2))
      ∧ Finset.sum S (fun p => pixelAt px (p.1 * w + p.2)) ≤ 255 * (S.card : Int) := by
  constructor
  · exact Finset.sum_nonneg (fun p _ => (pixelAt_bounds px _).1)
  · have := Finset.sum_le_card_nsmul S
      (fun p => pixelAt px (p.1 * w + p.2)) 255 (fun p _ => (pixelAt_bounds px _).2)
    rw [nsmul_eq_mul] at this
    linarith

theorem sourceBlock_subset_image (w h bw bh x y : Int) :
    sourceBlock w h bw bh x y ⊆ Finset.Ico 0 h ×ˢ Finset.Ico 0 w := by
  intro p hp
  obtain ⟨r, c⟩ := p
  rw [mem_sourceBlock] at hp
  simp only [Finset.mem_product, Finset.mem_Ico]
  omega

theorem card_sourceBlock_le (w h bw bh x y : Int) (hw : 0 ≤ w) (hh : 0 ≤ h) :
    ((sourceBlock w h bw bh x y).card : Int) ≤ w * h :=
  card_le_of_subset_image _ w h (sourceBlock_subset_image w h bw bh x y) hw hh

theorem sum_sourceBlock_bounds (px : List (Fin 256)) (w h bw bh x y : Int) :
    0 ≤ Finset.sum (sourceBlock w h bw bh x y) (fun p => pixelAt px (p.1 * w + p.2))
      ∧ Finset.sum (sourceBlock w h bw bh x y) (fun p => pixelAt px (p.1 * w + p.2))
          ≤ 255 * ((sourceBlock w h bw bh x y).card : Int) :=
  sum_pixels_bounds px w _

/-- In an image of at most `2 ^ 31` pixels no read leaves the buffer and no index wraps: the
inner loops sum the pixels of the loop ranges that pass the bounds test, and count them in
an `int`. -/
theorem blockTotals_eq (px : List (Fin 256)) (w h sx sy cbw cbh : Int)
    (hlen : (px.length : Int) = w * h) (hw : 0 ≤ w) (hh : 0 ≤ h)
    (hfit : w * h ≤ 2147483648) :
    blockTotals px w h sx sy cbw cbh
      = some
        (Finset.sum ((Finset.Ico sy (sy + cbh) ×ˢ Finset.Ico sx (sx + cbw)).filter
            (fun p => 0 ≤ p.2 ∧ p.2 < w ∧ 0 ≤ p.1 ∧ p.1 < h))
          (fun p => pixelAt px (p.1 * w + p.2)),
        wrapInt32 (((Finset.Ico sy (sy + cbh) ×ˢ Finset.Ico sx (sx + cbw)).filter
            (fun p => 0 ≤ p.2 ∧ p.2 < w ∧ 0 ≤ p.1 ∧ p.1 < h)).card : Int)) := by
  unfold blockTotals
  have hin : ∀ (yp xp : Int) (acc : Int × Int),
      wrapInt64 acc.1 = acc.1 → wrapInt32 acc.2 = acc.2 →
      (if 0 ≤ xp ∧ xp < w ∧ 0 ≤ yp ∧ yp < h then
          (readPixel px (pixelIndex w yp xp)).map
            (fun p => (wrapInt64 (acc.1 + p), wrapInt32 (acc.2 + 1)))
        else some acc)
      = some (wrapInt64 (acc.1
            + (if 0 ≤ xp ∧ xp < w ∧ 0 ≤ yp ∧ yp < h then pixelAt px (yp * w + xp) else 0)),
          wrapInt32 (acc.2 + (if 0 ≤ xp ∧ xp < w ∧ 0 ≤ yp ∧ yp < h then 1 else 0))) := by
    intro yp xp acc h1 h2
    by_cases hg : 0 ≤ xp ∧ xp < w ∧ 0 ≤ yp ∧ yp < h
    · have hb := index_in_bounds w h xp yp hg.1 hg.2.1 hg.2.2.1 hg.2.2.2
      rw [if_pos hg, if_pos hg, if_pos hg,
        pixelIndex_eq w h xp yp hfit hg.1 hg.2.1 hg.2.2.1 hg.2.2.2,
        readPixel_eq px _ hb.1 (by rw [hlen]; exact hb.2)]
      rfl
    · rw [if_neg hg, if_neg hg, if_neg hg, add_zero, add_zero, h1, h2]
  have hrow : ∀ (yp : Int) (acc : Int × Int),
      wrapInt64 acc.1 = acc.1 → wrapInt32 acc.2 = acc.2 →
      forLoop sx (sx + cbw) (fun x_pixel acc =>
        if 0 ≤ x_pixel ∧ x_pixel < w ∧ 0 ≤ yp ∧ yp < h then
          (readPixel px (pixelIndex w yp x_pixel)).map
            (fun p => (wrapInt64 (acc.1 + p), wrapInt32 (acc.2 + 1)))
        else some acc) acc
      = some (wrapInt64 (acc.1 + Finset.sum (Finset.Ico sx (sx + cbw)) (fun xp =>
            if 0 ≤ xp ∧ xp < w ∧ 0 ≤ yp ∧ yp < h then pixelAt px (yp * w + xp) else 0)),
          wrapInt32 (acc.2 + Finset.sum (Finset.Ico sx (sx + cbw)) (fun xp =>
            if 0 ≤ xp ∧ xp < w ∧ 0 ≤ yp ∧ yp < h then (1 : Int) else 0))) := by
    intro yp acc h1 h2
    exact forLoop_sum _ _ _ (fun i a => hin yp i a) _ _ _ h1 h2
  rw [forLoop_sum _ _ _ hrow _ _ _ (by decide) (by decide)]
  simp only [zero_add]
  have hsum : Finset.sum (Finset.Ico sy (sy + cbh)) (fun yp =>
        Finset.sum (Finset.Ico sx (sx + cbw)) (fun xp =>
          if 0 ≤ xp ∧ xp < w ∧ 0 ≤ yp ∧ yp < h then pixelAt px (yp * w + xp) else 0))
      = Finset.sum ((Finset.Ico sy (sy + cbh) ×ˢ Finset.Ico sx (sx + cbw)).filter
            (fun p => 0 ≤ p.2 ∧ p.2 < w ∧ 0 ≤ p.1 ∧ p.1 < h))
          (fun p => pixelAt px (p.1 * w + p.2)) := by
    rw [Finset.sum_filter, Finset.sum_product]
  have hcard : Finset.sum (Finset.Ico sy (sy + cbh)) (fun yp =>
        Finset.sum (Finset.Ico sx (sx + cbw)) (fun xp =>
          if 0 ≤ xp ∧ xp < w ∧ 0 ≤ yp ∧ yp < h then (1 : Int) else 0))
      = (((Finset.Ico sy (sy + cbh) ×ˢ Finset.Ico sx (sx + cbw)).filter
            (fun p => 0 ≤ p.2 ∧ p.2 < w ∧ 0 ≤ p.1 ∧ p.1 < h)).card : Int) := by
    rw [Finset.card_filter]
    push_cast
    rw [Finset.sum_product]
  rw [hsum, hcard]
  have hsub : (Finset.Ico sy (sy + cbh) ×ˢ Finset.Ico sx (sx + cbw)).filter
      (fun p => 0 ≤ p.2 ∧ p.2 < w ∧ 0 ≤ p.1 ∧ p.1 < h)
      ⊆ Finset.Ico 0 h ×ˢ Finset.Ico 0 w := by
    intro p hp
    simp only [Finset.mem_filter] at hp
    simp only [Finset.mem_product, Finset.mem_Ico]
    omega
  have hc := card_le_of_subset_image _ w h hsub hw hh
  have hs := sum_pixels_bounds px w ((Finset.Ico sy (sy + cbh)
    ×ˢ Finset.Ico sx (sx + cbw)).filter (fun p => 0 ≤ p.2 ∧ p.2 < w ∧ 0 ≤ p.1 ∧ p.1 < h))
  rw [wrapInt64_eq_self _ (by omega) (by omega)]

/-- The accumulators of a cell in an image of at most `2 ^ 31` pixels: the sum of the
pixels of its block, and their number in an `int`. -/
theorem cellTotals_eq_of_fit (px : List (Fin 256)) (w h bw bh x y : Int)
    (hlen : (px.length : Int) = w * h) (hw : 0 ≤ w) (hh : 0 ≤ h)
    (hfit : w * h ≤ 2147483648) :
    cellTotals px w h bw bh x y
      = some (Finset.sum (sourceBlock w h bw bh x y) (fun p => pixelAt px (p.1 * w + p.2)),
          wrapInt32 ((sourceBlock w h bw bh x y).card : Int)) := by
  unfold cellTotals sourceBlock
  simp only []
  exact blockTotals_eq px w h _ _ _ _ hlen hw hh hfit

/-- The accumulators of a cell in an image of at most `INT_MAX` pixels: the sum and the
number of the pixels of its block. -/
theorem cellTotals_eq (px : List (Fin 256)) (w h bw bh x y : Int)
    (hlen : (px.length : Int) = w * h) (hw : 0 ≤ w) (hh : 0 ≤ h) (hsize : w * h ≤ INT_MAX) :
    cellTotals px w h bw bh x y
      = some (Finset.sum (sourceBlock w h bw bh x y) (fun p => pixelAt px (p.1 * w + p.2)),
          ((sourceBlock w h bw bh x y).card : Int)) := by
  have hmax : w * h ≤ 2147483647 := hsize
  have hc := card_sourceBlock_le w h bw bh x y hw hh
  have hc0 : (0 : Int) ≤ ((sourceBlock w h bw bh x y).card : Int) := Int.natCast_nonneg _
  rw [cellTotals_eq_of_fit px w h bw bh x y hlen hw hh (by omega),
    wrapInt32_eq_self _ (by unfold INT_MIN; omega) (le_trans hc hsize)]

theorem average_grayscale_eq_cellTotals (px : List (Fin 256)) (w h bw bh x y : Int) :
    average_grayscale px w h bw bh x y
      = (cellTotals px w h bw bh x y).map
          (fun acc => if acc.2 > 0 then wrapInt32 (Int.tdiv acc.1 acc.2) else 0) := rfl

/-- The mean of a block of at most `INT_MAX` pixels is the exact truncated mean, in
`[0, 255]`. -/
theorem mean_bounds (T N : Int) (hT0 : 0 ≤ T) (hT : T ≤ 255 * N) (hN0 : 0 ≤ N) :
    (if N > 0 then wrapInt32 (Int.tdiv T N) else 0) = (if N > 0 then Int.tdiv T N else 0)
      ∧ 0 ≤ (if N > 0 then Int.tdiv T N else 0)
      ∧ (if N > 0 then Int.tdiv T N else 0) ≤ 255 := by
  split_ifs with hpos
  · rw [Int.tdiv_eq_ediv hT0 hN0]
    have h1 : 0 ≤ T / N := Int.ediv_nonneg hT0 hN0
    have h2 : T / N ≤ 255 := Int.ediv_le_of_le_mul hpos hT
    exact ⟨wrapInt32_eq_self _ (by unfold INT_MIN; omega) (by unfold INT_MAX; omega), h1, h2⟩
  · exact ⟨rfl, le_rfl, by omega⟩

/-- In an image of at most `INT_MAX` pixels the mean of a cell is the mean of the
specification. -/
theorem average_grayscale_eq (px : List (Fin 256)) (w h bw bh x y : Int)
    (hlen : (px.length : Int) = w * h) (hw : 0 ≤ w) (hh : 0 ≤ h) (hsize : w * h ≤ INT_MAX) :
    average_grayscale px w h bw bh x y = some (specMean px w h bw bh x y) := by
  rw [average_grayscale_eq_cellTotals, cellTotals_eq px w h bw bh x y hlen hw hh hsize]
  have hs := sum_sourceBlock_bounds px w h bw bh x y
  have hc0 : (0 : Int) ≤ ((sourceBlock w h bw bh x y).card : Int) := Int.natCast_nonneg _
  simp only [Option.map_some']
  rw [(mean_bounds _ _ hs.1 hs.2 hc0).1]
  unfold specMean
  rw [← sourceBlock_eq_specBlock]
  simp only []
  congr 1
  by_cases he : sourceBlock w h bw bh x y = ∅
  · simp [he]
  · have hc : 0 < (sourceBlock w h bw bh x y).card :=
      Finset.card_pos.2 (Finset.nonempty_iff_ne_empty.2 he)
    have hc2 : ((sourceBlock w h bw bh x y).card : Int) > 0 := by exact_mod_cast hc
    simp only [he, if_false, hc2, if_true]

/-! ## The whole rendering -/

theorem specRows_eq_rowsOfMeans (px : List (Fin 256)) (w h ow : Int) (g : Geometry) :
    specRows px w h ow g
      = rowsOfMeans (specMean px w h g.block_width g.block_height) ow g.output_height := rfl

/-- When every cell has a mean, the loops write the rows of these means. -/
theorem renderLoops_eq_of_means (px : List (Fin 256)) (w h ow : Int) (g : Geometry)
    (mean : Int → Int → Int)
    (hmean : ∀ x y : Int,
      average_grayscale px w h g.block_width g.block_height x y = some (mean x y)) :
    renderLoops px w h ow g = some (textOfRows (rowsOfMeans mean ow g.output_height)) := by
  unfold renderLoops
  have hcell : ∀ (y x : Int) (file : List Char),
      (average_grayscale px w h g.block_width g.block_height x y).map
          (fun avg => file ++ [map_grayscale_to_char avg])
        = some (file ++ [map_grayscale_to_char (mean x y)]) := by
    intro y x file
    rw [hmean x y]
    rfl
  have hrow : ∀ (y : Int) (file : List Char),
      (forLoop 0 ow (fun x_char file =>
          (average_grayscale px w h g.block_width g.block_height x_char y).map
            (fun avg => file ++ [map_grayscale_to_char avg])) file).map
        (fun file => file ++ [newline])
      = some (file ++ ((List.range ow.toNat).map
          (fun (x : Nat) => map_grayscale_to_char (mean (x : Int) y)) ++ [newline])) := by
    intro y file
    rw [forLoop_append _ _ (fun i s => hcell y i s), flatten_map_singleton]
    simp only [Option.map_some', sub_zero, zero_add, List.append_assoc]
  rw [forLoop_append _ _ hrow]
  simp only [sub_zero, zero_add, List.nil_append, textOfRows, rowsOfMeans, List.map_map]
  rfl

theorem not_invalid (px : List (Fin 256)) (w h ow : Int) (hw : 0 < w) (hh : 0 < h)
    (how : 0 < ow) :
    ¬ ((some px).isNone = true ∨ w ≤ 0 ∨ h ≤ 0 ∨ ow ≤ 0 ∨ (some ()).isNone = true) := by
  simp only [Option.isNone_some, Bool.false_eq_true, false_or, or_false]
  omega

/-- The result of a call with positive dimensions, in terms of the loops. -/
theorem convert_to_ascii_eq_renderLoops (px : List (Fin 256)) (w h ow : Int) (hw : 0 < w)
    (hh : 0 < h) (how : 0 < ow) :
    convert_to_ascii (some px) w h ow (some ())
      = (renderLoops px w h ow (geometry w h ow)).map (fun file =>
          ⟨progressText w h ow (geometry w h ow)
            ++ "ASCII art conversion complete.\n".toList, [], file⟩) := by
  unfold convert_to_ascii
  rw [if_neg (not_invalid px w h ow hw hh how)]
  rfl

/-- On valid input of at most `2 ^ 31` pixels `convert_to_ascii` reads inside the buffer
and writes the rows of the means that the code computes. -/
theorem convert_to_ascii_of_means (px : List (Fin 256)) (w h ow : Int) (hw : 0 < w)
    (hh : 0 < h) (how : 0 < ow) (mean : Int → Int → Int)
    (hmean : ∀ x y : Int,
      average_grayscale px w h (geometry w h ow).block_width (geometry w h ow).block_height
        x y = some (mean x y)) :
    convert_to_ascii (some px) w h ow (some ())
      = some ⟨progressText w h ow (geometry w h ow)
            ++ "ASCII art conversion complete.\n".toList, [],
          textOfRows (rowsOfMeans mean ow (geometry w h ow).output_height)⟩ := by
  rw [convert_to_ascii_eq_renderLoops px w h ow hw hh how,
    renderLoops_eq_of_means px w h ow _ mean hmean]
  rfl

/-- On valid input of at most `INT_MAX` pixels `convert_to_ascii` reads inside the buffer,
reports no error and writes the rows of the specification. -/
theorem convert_to_ascii_valid (px : List (Fin 256)) (w h ow : Int)
    (hv : ValidInput px w h ow) (hsize : w * h ≤ INT_MAX) :
    convert_to_ascii (some px) w h ow (some ())
      = some ⟨progressText w h ow (geometry w h ow)
            ++ "ASCII art conversion complete.\n".toList, [],
          textOfRows (specRows px w h ow (geometry w h ow))⟩ := by
  rw [specRows_eq_rowsOfMeans]
  exact convert_to_ascii_of_means px w h ow hv.width_pos hv.height_pos hv.output_width_pos _
    (fun x y => average_grayscale_eq px w h _ _ x y hv.buffer_size (le_of_lt hv.width_pos)
      (le_of_lt hv.height_pos) hsize)

/-- Every character that the loops write is a value of `map_grayscale_to_char` or a line
terminator. -/
theorem renderLoops_chars (px : List (Fin 256)) (w h ow : Int) (g : Geometry)
    (file : List Char) (hrun : renderLoops px w h ow g = some file) :
    ∀ ch ∈ file, ch = newline ∨ ∃ v : Int, ch = map_grayscale_to_char v := by
  unfold renderLoops forLoop at hrun
  refine loopFrom_invariant _
    (fun f => ∀ ch ∈ f, ch = newline ∨ ∃ v : Int, ch = map_grayscale_to_char v) ?_ _ _ _ _
    (by intro ch hch; simp at hch) hrun
  intro y f t hf hstep
  simp only [Option.map_eq_some'] at hstep
  obtain ⟨u, hu, rfl⟩ := hstep
  have hP : ∀ ch ∈ u, ch = newline ∨ ∃ v : Int, ch = map_grayscale_to_char v := by
    refine loopFrom_invariant _
      (fun f => ∀ ch ∈ f, ch = newline ∨ ∃ v : Int, ch = map_grayscale_to_char v) ?_ _ _ _ _
      hf hu
    intro x f2 t2 hf2 hstep2
    simp only [Option.map_eq_some'] at hstep2
    obtain ⟨avg, _, rfl⟩ := hstep2
    intro ch hch
    rw [List.mem_append] at hch
    rcases hch with hch | hch
    · exact hf2 ch hch
    · simp only [List.mem_singleton] at hch
      exact Or.inr ⟨avg, hch⟩
  intro ch hch
  rw [List.mem_append] at hch
  rcases hch with hch | hch
  · exact hP ch hch
  · simp only [List.mem_singleton] at hch
    exact Or.inl hch

/-- A cell of the grid whose mean is undefined makes the loops fail. -/
theorem renderLoops_none (px : List (Fin 256)) (w h ow : Int) (g : Geometry) (x y : Int)
    (hx0 : 0 ≤ x) (hx : x < ow) (hy0 : 0 ≤ y) (hy : y < g.output_height)
    (hcell : average_grayscale px w h g.block_width g.block_height x y = none) :
    renderLoops px w h ow g = none := by
  unfold renderLoops
  apply forLoop_none _ 0 g.output_height [] y hy0 hy
  intro t
  rw [forLoop_none _ 0 ow t x hx0 hx]
  · rfl
  · intro u
    rw [hcell]
    rfl

/-- A read outside the buffer in the loops of a cell makes its mean undefined. -/
theorem average_grayscale_none (px : List (Fin 256)) (w h bw bh x y r c : Int)
    (hr : y * bh ≤ r ∧ r < y * bh + current_block_size h bh (y * bh))
    (hc : x * bw ≤ c ∧ c < x * bw + current_block_size w bw (x * bw))
    (hguard : 0 ≤ c ∧ c < w ∧ 0 ≤ r ∧ r < h)
    (hread : readPixel px (pixelIndex w r c) = none) :
    average_grayscale px w h bw bh x y = none := by
  unfold average_grayscale blockTotals
  simp only []
  rw [forLoop_none _ _ _ _ r hr.1 hr.2]
  · rfl
  · intro t
    apply forLoop_none _ _ _ _ c hc.1 hc.2
    intro u
    rw [if_pos hguard, hread]
    rfl

/-- A block of the grid starts at a nonnegative offset and ends inside `size * count`. -/
theorem block_in_grid (size count i : Int) (hs : 0 < size) (hi0 : 0 ≤ i) (hi : i < count) :
    0 ≤ i * size ∧ i * size + size ≤ count * size := by
  have h1 : 0 ≤ i * size := mul_nonneg hi0 (le_of_lt hs)
  have h2 : (i + 1) * size ≤ count * size :=
    Int.mul_le_mul_of_nonneg_right (by omega) (le_of_lt hs)
  have h3 : (i + 1) * size = i * size + size := by ring
  omega

theorem block_le_next (size i j : Int) (hs : 0 < size) (hij : i < j) :
    i * size + size ≤ j * size := by
  have h2 : (i + 1) * size ≤ j * size :=
    Int.mul_le_mul_of_nonneg_right (by omega) (le_of_lt hs)
  have h3 : (i + 1) * size = i * size + size := by ring
  omega

/-- On valid input the block of a cell of the grid is empty exactly when the cell lies in a
column at or beyond the image width. -/
theorem specBlock_ne_empty_iff (px : List (Fin 256)) (w h ow : Int) (hv : ValidInput px w h ow)
    (x y : Int) (hx0 : 0 ≤ x) (hx : x < ow) (hy0 : 0 ≤ y)
    (hy : y < (geometry w h ow).output_height) :
    specBlock w h (geometry w h ow).block_width (geometry w h ow).block_height x y ≠ ∅
      ↔ x < w := by
  obtain ⟨hbw, hbh, _, _, hoh, hle, hgt⟩ :=
    geometry_facts px w h ow hv (lt_of_le_of_lt hy0 hy)
  have hrow := block_in_grid _ _ y hbh hy0 hy
  rw [← Finset.nonempty_iff_ne_empty]
  constructor
  · rintro ⟨⟨r, c⟩, hm⟩
    rw [mem_specBlock] at hm
    by_cases hcase : ow ≤ w
    · omega
    · have hb := (hgt (by omega)).1
      rw [hb] at hm
      omega
  · intro hxw
    refine ⟨(y * (geometry w h ow).block_height, x * (geometry w h ow).block_width), ?_⟩
    rw [mem_specBlock]
    by_cases hcase : ow ≤ w
    · have hcol := block_in_grid _ _ x hbw hx0 hx
      have := (hle hcase).2.2
      have hcomm : ow * (geometry w h ow).block_width = (geometry w h ow).block_width * ow :=
        mul_comm _ _
      have hcomm2 : x * (geometry w h ow).block_width
          = (geometry w h ow).block_width * x := mul_comm _ _
      refine ⟨⟨le_rfl, by omega⟩, ⟨le_rfl, by omega⟩, ⟨hrow.1, by omega⟩, ⟨hcol.1, ?_⟩⟩
      omega
    · have hb := (hgt (by omega)).1
      rw [hb]
      refine ⟨⟨le_rfl, by omega⟩, ⟨le_rfl, by omega⟩, ⟨hrow.1, by omega⟩, ⟨by omega, by omega⟩⟩

theorem pixelAt_uniform (px : List (Fin 256)) (c : Fin 256) (hu : ∀ p ∈ px, p = c) (i : Int)
    (hi0 : 0 ≤ i) (hi : i < (px.length : Int)) : pixelAt px i = (c.val : Int) := by
  unfold pixelAt
  have hlt : i.toNat < px.length := by omega
  rw [List.getD_eq_getElem _ _ hlt, hu _ (List.getElem_mem _)]

/-- The mean of a nonempty block of a uniform buffer is the common pixel value. -/
theorem specMean_uniform (px : List (Fin 256)) (w h bw bh x y : Int) (c : Fin 256)
    (hlen : (px.length : Int) = w * h) (hu : ∀ p ∈ px, p = c)
    (hne : specBlock w h bw bh x y ≠ ∅) : specMean px w h bw bh x y = (c.val : Int) := by
  unfold specMean
  simp only [hne, if_false]
  have hsum : Finset.sum (specBlock w h bw bh x y) (fun p => pixelAt px (p.1 * w + p.2))
      = ((specBlock w h bw bh x y).card : Int) * (c.val : Int) := by
    rw [Finset.sum_congr rfl (fun p hp => ?_), Finset.sum_const, nsmul_eq_mul]
    obtain ⟨r, col⟩ := p
    rw [mem_specBlock] at hp
    have hb := index_in_bounds w h col r hp.2.2.2.1 hp.2.2.2.2 hp.2.2.1.1 hp.2.2.1.2
    exact pixelAt_uniform px c hu _ hb.1 (by rw [hlen]; exact hb.2)
  have hc : 0 < (specBlock w h bw bh x y).card :=
    Finset.card_pos.2 (Finset.nonempty_iff_ne_empty.2 hne)
  have hc2 : (0 : Int) < ((specBlock w h bw bh x y).card : Int) := by exact_mod_cast hc
  rw [hsum, Int.tdiv_eq_ediv (mul_nonneg (le_of_lt hc2) (by omega)) (le_of_lt hc2),
    Int.mul_ediv_cancel_left _ (ne_of_gt hc2)]

theorem specMean_empty (px : List (Fin 256)) (w h bw bh x y : Int)
    (he : specBlock w h bw bh x y = ∅) : specMean px w h bw bh x y = 0 := by
  unfold specMean
  simp only [he, if_true]

/-- The pixels read for a cell of the grid lie inside the rows and columns of the grid. -/
theorem sourceBlock_in_grid (px : List (Fin 256)) (w h ow : Int) (hv : ValidInput px w h ow)
    (x y : Int) (hx0 : 0 ≤ x) (hx : x < ow) (hy0 : 0 ≤ y)
    (hy : y < (geometry w h ow).output_height) (r c : Int)
    (hm : (r, c) ∈ sourceBlock w h (geometry w h ow).block_width
      (geometry w h ow).block_height x y) :
    r < (geometry w h ow).output_height * (geometry w h ow).block_height
      ∧ c < ow * (geometry w h ow).block_width := by
  obtain ⟨hbw, hbh, _, _, _, _, _⟩ :=
    geometry_facts px w h ow hv (lt_of_le_of_lt hy0 hy)
  rw [mem_sourceBlock] at hm
  have h1 := block_in_grid _ _ y hbh hy0 hy
  have h2 := block_in_grid _ _ x hbw hx0 hx
  omega

/-- The loop ranges of a cell of the grid lie inside the image. -/
theorem cell_ranges_in_image (px : List (Fin 256)) (w h ow : Int) (hv : ValidInput px w h ow)
    (x y : Int) (hx0 : 0 ≤ x) (hy0 : 0 ≤ y) (hy : y < (geometry w h ow).output_height) :
    0 ≤ x * (geometry w h ow).block_width
      ∧ x * (geometry w h ow).block_width
          + current_block_size w (geometry w h ow).block_width
              (x * (geometry w h ow).block_width)
        ≤ max w (x * (geometry w h ow).block_width)
      ∧ 0 ≤ y * (geometry w h ow).block_height
      ∧ y * (geometry w h ow).block_height + (geometry w h ow).block_height ≤ h
      ∧ current_block_size h (geometry w h ow).block_height
          (y * (geometry w h ow).block_height) = (geometry w h ow).block_height := by
  obtain ⟨hbw, hbh, _, _, hoh, _, _⟩ :=
    geometry_facts px w h ow hv (lt_of_le_of_lt hy0 hy)
  have hrow := block_in_grid _ _ y hbh hy0 hy
  have hcol : 0 ≤ x * (geometry w h ow).block_width := mul_nonneg hx0 (le_of_lt hbw)
  have hfit : y * (geometry w h ow).block_height + (geometry w h ow).block_height ≤ h := by
    omega
  refine ⟨hcol, ?_, hrow.1, hfit, ?_⟩
  · unfold current_block_size
    split_ifs <;> omega
  · unfold current_block_size
    rw [if_neg (by omega)]

/-- The block of a cell of the grid in a column inside the image is the full rectangle. -/
theorem card_sourceBlock_full (px : List (Fin 256)) (w h ow : Int) (hv : ValidInput px w h ow)
    (x y : Int) (hx0 : 0 ≤ x) (hx : x < ow) (hy0 : 0 ≤ y)
    (hy : y < (geometry w h ow).output_height) (hxw : x < w) :
    ((sourceBlock w h (geometry w h ow).block_width (geometry w h ow).block_height x y).card
        : Int)
      = (geometry w h ow).block_width * (geometry w h ow).block_height := by
  obtain ⟨hbw, hbh, _, _, _, hle, hgt⟩ :=
    geometry_facts px w h ow hv (lt_of_le_of_lt hy0 hy)
  obtain ⟨hsx, _, hsy, hyr, _⟩ := cell_ranges_in_image px w h ow hv x y hx0 hy0 hy
  have hxr : x * (geometry w h ow).block_width + (geometry w h ow).block_width ≤ w := by
    by_cases hcase : ow ≤ w
    · have h1 := (hle hcase).2.2
      have h2 := block_in_grid _ _ x hbw hx0 hx
      have h3 : ow * (geometry w h ow).block_width = (geometry w h ow).block_width * ow :=
        mul_comm _ _
      have h4 : x * (geometry w h ow).block_width = (geometry w h ow).block_width * x :=
        mul_comm _ _
      omega
    · have hb := (hgt (by omega)).1
      rw [hb]
      omega
  have hfull : sourceBlock w h (geometry w h ow).block_width (geometry w h ow).block_height x y
      = Finset.Ico (y * (geometry w h ow).block_height)
            (y * (geometry w h ow).block_height + (geometry w h ow).block_height)
          ×ˢ Finset.Ico (x * (geometry w h ow).block_width)
            (x * (geometry w h ow).block_width + (geometry w h ow).block_width) := by
    ext ⟨r, c⟩
    rw [mem_sourceBlock]
    simp only [Finset.mem_product, Finset.mem_Ico]
    omega
  rw [hfull, Finset.card_product, Int.card_Ico, Int.card_Ico]
  push_cast
  rw [Int.toNat_of_nonneg (by omega), Int.toNat_of_nonneg (by omega)]
  ring

/-- The `int` expressions of lines 103 to 122 stay inside the `int` range for a cell of
the grid: the offsets of its block and the ends of its loop ranges. -/
theorem cell_offsets_fit_int (px : List (Fin 256)) (w h ow : Int) (hv : ValidInput px w h ow)
    (x y : Int) (hx0 : 0 ≤ x) (hx : x < ow) (hy0 : 0 ≤ y)
    (hy : y < (geometry w h ow).output_height) :
    (0 ≤ x * (geometry w h ow).block_width
        ∧ x * (geometry w h ow).block_width + (geometry w h ow).block_width ≤ INT_MAX
        ∧ INT_MIN ≤ w - x * (geometry w h ow).block_width)
      ∧ (0 ≤ y * (geometry w h ow).block_height
        ∧ y * (geometry w h ow).block_height + (geometry w h ow).block_height ≤ INT_MAX
        ∧ 0 ≤ h - y * (geometry w h ow).block_height) := by
  obtain ⟨hbw, hbh, _, _, hoh, hle, hgt⟩ := geometry_facts px w h ow hv (lt_of_le_of_lt hy0 hy)
  have hrow := block_in_grid _ _ y hbh hy0 hy
  have hcol := block_in_grid _ _ x hbw hx0 hx
  have h1 := hv.width_int
  have h2 := hv.height_int
  have h3 := hv.output_width_int
  have h4 := hv.width_pos
  have e1 : INT_MAX = 2147483647 := rfl
  have e2 : INT_MIN = -2147483648 := rfl
  refine ⟨?_, by omega, by omega, by omega⟩
  by_cases hcase : ow ≤ w
  · have h5 := (hle hcase).2.2
    have h6 : ow * (geometry w h ow).block_width = (geometry w h ow).block_width * ow :=
      mul_comm _ _
    have h7 : x * (geometry w h ow).block_width = (geometry w h ow).block_width * x :=
      mul_comm _ _
    omega
  · have hb := (hgt (by omega)).1
    rw [hb]
    omega

/-- The positions visited by the inner loops are those of the two loop ranges. -/
theorem blockVisits_spec (sx sy cbw cbh : Int) :
    ∃ visits, blockVisits sx sy cbw cbh = some visits
      ∧ ∀ yp xp : Int, (yp, xp) ∈ visits
          ↔ (sy ≤ yp ∧ yp < sy + cbh) ∧ (sx ≤ xp ∧ xp < sx + cbw) := by
  have hrow : ∀ (yp : Int) (acc : List (Int × Int)),
      forLoop sx (sx + cbw) (fun x_pixel acc => some (acc ++ [(yp, x_pixel)])) acc
        = some (acc ++ (List.range (sx + cbw - sx).toNat).map
            (fun (k : Nat) => (yp, sx + (k : Int)))) := by
    intro yp acc
    unfold forLoop
    rw [loopFrom_append_list _ (fun i => [(yp, i)]) (fun i s => rfl), flatten_map_singleton]
  have heq : blockVisits sx sy cbw cbh
      = some ([] ++ ((List.range (sy + cbh - sy).toNat).map (fun (ky : Nat) =>
          (List.range (sx + cbw - sx).toNat).map
            (fun (kx : Nat) => (sy + (ky : Int), sx + (kx : Int))))).flatten) := by
    unfold blockVisits
    rw [forLoop]
    exact loopFrom_append_list _ _ hrow _ _ _
  refine ⟨_, heq, ?_⟩
  · intro yp xp
    simp only [List.nil_append, List.mem_flatten, List.mem_map, List.mem_range]
    constructor
    · rintro ⟨l, ⟨ky, hky, rfl⟩, hmem⟩
      rw [List.mem_map] at hmem
      obtain ⟨kx, hkx, heq⟩ := hmem
      rw [List.mem_range] at hkx
      simp only [Prod.mk.injEq] at heq
      omega
    · rintro ⟨hy, hx⟩
      refine ⟨_, ⟨(yp - sy).toNat, by omega, rfl⟩, ?_⟩
      rw [List.mem_map]
      refine ⟨(xp - sx).toNat, by rw [List.mem_range]; omega, ?_⟩
      simp only [Prod.mk.injEq]
      omega

/-! ## Images whose pixels do not all fit an `int` -/

theorem readPixel_neg (px : List (Fin 256)) (i : Int) (hi : i < 0) : readPixel px i = none := by
  unfold readPixel
  rw [if_neg (by omega)]

/-- A pixel of the rows and columns of the grid lies in the block of a cell of the grid. -/
theorem sourceBlock_of_grid_pixel (px : List (Fin 256)) (w h ow : Int)
    (hv : ValidInput px w h ow) (r c : Int) (hr0 : 0 ≤ r) (hc0 : 0 ≤ c) (hcw : c < w)
    (hrr : r < (geometry w h ow).output_height * (geometry w h ow).block_height)
    (hcc : c < ow * (geometry w h ow).block_width) :
    ∃ x y : Int, (0 ≤ x ∧ x < ow) ∧ (0 ≤ y ∧ y < (geometry w h ow).output_height)
      ∧ (r, c) ∈ sourceBlock w h (geometry w h ow).block_width
          (geometry w h ow).block_height x y := by
  obtain ⟨_, hoh0, _, _, _, _, _, _, _⟩ :=
    geometry_basic w h ow hv.width_pos hv.width_int hv.output_width_pos hv.height_pos
      hv.height_int
  have hoh : 0 < (geometry w h ow).output_height := by
    by_contra hc
    have hz : (geometry w h ow).output_height = 0 := by omega
    rw [hz] at hrr
    omega
  obtain ⟨hbw, hbh, _, _, hle, _, _⟩ := geometry_facts px w h ow hv hoh
  refine ⟨c / (geometry w h ow).block_width, r / (geometry w h ow).block_height,
    ⟨Int.ediv_nonneg hc0 (le_of_lt hbw), Int.ediv_lt_of_lt_mul hbw hcc⟩,
    ⟨Int.ediv_nonneg hr0 (le_of_lt hbh), Int.ediv_lt_of_lt_mul hbh hrr⟩, ?_⟩
  rw [mem_sourceBlock]
  have e1 := Int.ediv_mul_le r (ne_of_gt hbh)
  have e2 := Int.lt_ediv_add_one_mul_self r hbh
  have e3 := Int.ediv_mul_le c (ne_of_gt hbw)
  have e4 := Int.lt_ediv_add_one_mul_self c hbw
  have e5 : (r / (geometry w h ow).block_height + 1) * (geometry w h ow).block_height
      = r / (geometry w h ow).block_height * (geometry w h ow).block_height
        + (geometry w h ow).block_height := by ring
  have e6 : (c / (geometry w h ow).block_width + 1) * (geometry w h ow).block_width
      = c / (geometry w h ow).block_width * (geometry w h ow).block_width
        + (geometry w h ow).block_width := by ring
  omega

/-- A read outside the buffer at a position of the loops of a cell of the grid makes the
whole call fail. -/
theorem convert_to_ascii_none (px : List (Fin 256)) (w h ow : Int) (hw : 0 < w) (hh : 0 < h)
    (how : 0 < ow) (x y r c : Int) (hx : 0 ≤ x ∧ x < ow)
    (hy : 0 ≤ y ∧ y < (geometry w h ow).output_height)
    (hr : y * (geometry w h ow).block_height ≤ r
      ∧ r < y * (geometry w h ow).block_height
          + current_block_size h (geometry w h ow).block_height
              (y * (geometry w h ow).block_height))
    (hc : x * (geometry w h ow).block_width ≤ c
      ∧ c < x * (geometry w h ow).block_width
          + current_block_size w (geometry w h ow).block_width
              (x * (geometry w h ow).block_width))
    (hguard : 0 ≤ c ∧ c < w ∧ 0 ≤ r ∧ r < h)
    (hread : readPixel px (pixelIndex w r c) = none) :
    convert_to_ascii (some px) w h ow (some ()) = none := by
  rw [convert_to_ascii_eq_renderLoops px w h ow hw hh how,
    renderLoops_none px w h ow _ x y hx.1 hx.2 hy.1 hy.2
      (average_grayscale_none px w h _ _ x y r c hr hc hguard hread)]
  rfl

/-- The sum of the pixels of a block of a uniform buffer. -/
theorem sum_sourceBlock_uniform (px : List (Fin 256)) (w h bw bh x y : Int) (c : Fin 256)
    (hlen : (px.length : Int) = w * h) (hu : ∀ p ∈ px, p = c) :
    Finset.sum (sourceBlock w h bw bh x y) (fun p => pixelAt px (p.1 * w + p.2))
      = ((sourceBlock w h bw bh x y).card : Int) * (c.val : Int) := by
  rw [Finset.sum_congr rfl (fun p hp => ?_), Finset.sum_const, nsmul_eq_mul]
  obtain ⟨r, col⟩ := p
  rw [mem_sourceBlock] at hp
  have hb := index_in_bounds w h col r hp.2.2.2.1 hp.2.2.2.2 hp.2.2.1.1 hp.2.2.1.2
  exact pixelAt_uniform px c hu _ hb.1 (by rw [hlen]; exact hb.2)

/-- The mean that the code computes for a cell in an image of at most `2 ^ 31` pixels. -/
theorem average_grayscale_eq_of_fit (px : List (Fin 256)) (w h bw bh x y : Int)
    (hlen : (px.length : Int) = w * h) (hw : 0 ≤ w) (hh : 0 ≤ h)
    (hfit : w * h ≤ 2147483648) :
    average_grayscale px w h bw bh x y
      = some (if wrapInt32 ((sourceBlock w h bw bh x y).card : Int) > 0 then
          wrapInt32 (Int.tdiv
            (Finset.sum (sourceBlock w h bw bh x y) (fun p => pixelAt px (p.1 * w + p.2)))
            (wrapInt32 ((sourceBlock w h bw bh x y).card : Int)))
        else 0) := by
  rw [average_grayscale_eq_cellTotals, cellTotals_eq_of_fit px w h bw bh x y hlen hw hh hfit]
  rfl

set_option maxRecDepth 100000 in
theorem map_grayscale_to_char_zero : map_grayscale_to_char 0 = '@' := by decide

/-! ### A 32768x65536 image of value 255 on one column: one block of `2 ^ 31` pixels -/

theorem whole_image_valid :
    ValidInput (List.replicate 2147483648 (255 : Fin 256)) 32768 65536 1 :=
  ⟨by decide, by decide, by decide, by decide, by decide, by decide,
    by rw [List.length_replicate]; rfl⟩

set_option maxRecDepth 100000 in
theorem whole_image_geometry : geometry 32768 65536 1 = ⟨32768, 65536, 1⟩ := by decide

theorem whole_image_card :
    ((sourceBlock 32768 65536 32768 65536 0 0).card : Int) = 2147483648 := by
  have h := card_sourceBlock_full _ 32768 65536 1 whole_image_valid 0 0 le_rfl (by decide)
    le_rfl (by rw [whole_image_geometry]; decide) (by decide)
  rw [whole_image_geometry] at h
  simp only [] at h
  rw [h]
  rfl

/-- The accumulators of the only cell: the counter has wrapped around to `INT_MIN`. -/
theorem whole_image_totals :
    cellTotals (List.replicate 2147483648 (255 : Fin 256)) 32768 65536 32768 65536 0 0
      = some (547608330240, -2147483648) := by
  rw [cellTotals_eq_of_fit _ 32768 65536 32768 65536 0 0 whole_image_valid.buffer_size
      (by decide) (by decide) (by decide),
    sum_sourceBlock_uniform _ 32768 65536 32768 65536 0 0 255 whole_image_valid.buffer_size
      (fun p hp => List.eq_of_mem_replicate hp),
    whole_image_card]
  rfl

/-- The text written: the only cell is `'@'`. -/
theorem whole_image_text :
    (convert_to_ascii (some (List.replicate 2147483648 (255 : Fin 256))) 32768 65536 1
        (some ())).map Output.file = some ['@', newline] := by
  have hv := whole_image_valid
  rw [convert_to_ascii_of_means _ 32768 65536 1 (by decide) (by decide) (by decide) _
    (fun x y => average_grayscale_eq_of_fit _ 32768 65536 _ _ x y hv.buffer_size (by decide)
      (by decide) (by decide))]
  rw [whole_image_geometry]
  simp only [Option.map_some', rowsOfMeans, textOfRows]
  have h1 : (1 : Int).toNat = 1 := rfl
  have h3 : List.range 1 = [0] := rfl
  simp only [h1, h3, List.map_cons, List.map_nil, Nat.cast_zero,
    List.flatten_cons, List.flatten_nil, List.append_nil, List.singleton_append,
    whole_image_card]
  have h2 : wrapInt32 2147483648 = -2147483648 := by decide
  rw [h2]
  simp only [gt_iff_lt, show ¬ ((0 : Int) < -2147483648) by decide, if_false,
    map_grayscale_to_char_zero]

/-! ### A 32769x65538 image on one column: the index of line 126 overflows -/

theorem overflow_image_valid :
    ValidInput (List.replicate (32769 * 65538) (0 : Fin 256)) 32769 65538 1 :=
  ⟨by decide, by decide, by decide, by decide, by decide, by decide,
    by rw [List.length_replicate]; rfl⟩

set_option maxRecDepth 100000 in
theorem overflow_image_geometry : geometry 32769 65538 1 = ⟨32769, 65538, 1⟩ := by decide

theorem overflow_image_read :
    pixelIndex 32769 65534 2 = -2147483648
      ∧ readPixel (List.replicate (32769 * 65538) (0 : Fin 256)) (pixelIndex 32769 65534 2)
          = none := by
  have h : pixelIndex 32769 65534 2 = -2147483648 := by decide
  exact ⟨h, readPixel_neg _ _ (by rw [h]; decide)⟩

/-- The position `(65534, 2)` lies in the loop ranges of the only cell and passes the
bounds test. -/
theorem overflow_image_position :
    ((0 : Int) * (geometry 32769 65538 1).block_height ≤ 65534
        ∧ (65534 : Int) < 0 * (geometry 32769 65538 1).block_height
            + current_block_size 65538 (geometry 32769 65538 1).block_height
                (0 * (geometry 32769 65538 1).block_height))
      ∧ ((0 : Int) * (geometry 32769 65538 1).block_width ≤ 2
        ∧ (2 : Int) < 0 * (geometry 32769 65538 1).block_width
            + current_block_size 32769 (geometry 32769 65538 1).block_width
                (0 * (geometry 32769 65538 1).block_width))
      ∧ ((0 : Int) ≤ 2 ∧ (2 : Int) < 32769 ∧ (0 : Int) ≤ 65534 ∧ (65534 : Int) < 65538) := by
  rw [overflow_image_geometry]
  simp only [current_block_size]
  norm_num

/-- The call reads outside the buffer and does not run to the end. -/
theorem overflow_image_fails :
    convert_to_ascii (some (List.replicate (32769 * 65538) (0 : Fin 256))) 32769 65538 1
        (some ()) = none := by
  have hy : (0 : Int) ≤ 0 ∧ (0 : Int) < (geometry 32769 65538 1).output_height := by
    rw [overflow_image_geometry]; norm_num
  exact convert_to_ascii_none (List.replicate (32769 * 65538) (0 : Fin 256)) 32769 65538 1
    (by norm_num) (by norm_num) (by norm_num) 0 0 65534 2 (by norm_num) hy
    overflow_image_position.1 overflow_image_position.2.1 overflow_image_position.2.2
    overflow_image_read.2


/-- The mean of the specification for the only cell of the 32768x65536 image. -/
theorem whole_image_specMean :
    specMean (List.replicate 2147483648 (255 : Fin 256)) 32768 65536 32768 65536 0 0 = 255 := by
  have hne := (specBlock_ne_empty_iff _ 32768 65536 1 whole_image_valid 0 0 le_rfl
    (by decide) le_rfl (by rw [whole_image_geometry]; decide)).2 (by decide)
  rw [whole_image_geometry] at hne
  rw [specMean_uniform _ 32768 65536 32768 65536 0 0 255 whole_image_valid.buffer_size
    (fun p hp => List.eq_of_mem_replicate hp) hne]
  rfl

/-! ### Invalid calls -/

/-- An invalid call only prints the error message. -/
theorem convert_to_ascii_invalid (pixel_data : Option (List (Fin 256))) (w h ow : Int)
    (output_file : Option Unit)
    (hinv : pixel_data = none ∨ w ≤ 0 ∨ h ≤ 0 ∨ ow ≤ 0 ∨ output_file = none) :
    convert_to_ascii pixel_data w h ow output_file
      = some ⟨[], "Error: Invalid input for ASCII conversion.\n".toList, []⟩ := by
  unfold convert_to_ascii
  have hc : pixel_data.isNone = true ∨ w ≤ 0 ∨ h ≤ 0 ∨ ow ≤ 0
      ∨ output_file.isNone = true := by
    rcases hinv with h1 | h1 | h1 | h1 | h1
    · left; rw [h1]; rfl
    · right; left; exact h1
    · right; right; left; exact h1
    · right; right; right; left; exact h1
    · right; right; right; right; rw [h1]; rfl
  rw [if_pos hc]

/-- The characters written by a call with positive dimensions that returns. -/
theorem convert_to_ascii_chars (buf : List (Fin 256)) (w h ow : Int) (hw : 0 < w)
    (hh : 0 < h) (how : 0 < ow) (out : Output)
    (hout : convert_to_ascii (some buf) w h ow (some ()) = some out) :
    ∀ ch ∈ out.file, ch = newline ∨ ∃ v : Int, ch = map_grayscale_to_char v := by
  rw [convert_to_ascii_eq_renderLoops buf w h ow hw hh how] at hout
  simp only [Option.map_eq_some'] at hout
  obtain ⟨file, hfile, rfl⟩ := hout
  exact renderLoops_chars buf w h ow _ file hfile

/-! ### A 1073741824x1 image on one column: twice the block width does not fit an `int` -/

theorem wide_image_valid :
    ValidInput (List.replicate 1073741824 (0 : Fin 256)) 1073741824 1 1 :=
  ⟨by decide, by decide, by decide, by decide, by decide, by decide,
    by rw [List.length_replicate]; rfl⟩

set_option maxRecDepth 100000 in
theorem wide_image_geometry : geometry 1073741824 1 1 = ⟨1073741824, -2147483648, 0⟩ := by
  decide

/-! ### The number of rows of the grid -/

/-- The positions visited by the inner loops for a cell are those of its two loop ranges. -/
theorem cellVisits_spec (w h bw bh x y : Int) :
    ∃ visits, cellVisits w h bw bh x y = some visits
      ∧ ∀ yp xp : Int, (yp, xp) ∈ visits
          ↔ (y * bh ≤ yp ∧ yp < y * bh + current_block_size h bh (y * bh))
            ∧ (x * bw ≤ xp ∧ xp < x * bw + current_block_size w bw (x * bw)) :=
  blockVisits_spec (x * bw) (y * bh) (current_block_size w bw (x * bw))
    (current_block_size h bh (y * bh))

/-! ## The claims -/

set_option maxRecDepth 100000 in
/-- C1, counterexample: an image of 32768x65536 pixels of value 255 rendered on one column is
valid and has one cell, the whole image; the mean of its pixels is 255, whose character is
the space, but the `int` counter of the pixels has wrapped around to a negative value and
the character written is `'@'`. -/
theorem C1_counterexample :
    ValidInput (List.replicate 2147483648 (255 : Fin 256)) 32768 65536 1
      ∧ geometry 32768 65536 1 = ⟨32768, 65536, 1⟩
      ∧ (convert_to_ascii (some (List.replicate 2147483648 (255 : Fin 256))) 32768 65536 1
          (some ())).map Output.file = some ['@', newline]
      ∧ map_grayscale_to_char
          (specMean (List.replicate 2147483648 (255 : Fin 256)) 32768 65536 32768 65536 0 0)
          = ' '
      ∧ '@' ≠ ' ' := by
  refine ⟨whole_image_valid, whole_image_geometry, whole_image_text, ?_, by decide⟩
  rw [whole_image_specMean]
  decide

/-- C1, amended: on valid input of at most `INT_MAX` pixels, the character that
`convert_to_ascii` writes at row `y_char`, column `x_char` of its output is
`map_grayscale_to_char m`, where `m` is the truncated quotient of the sum of the pixels of
the cell's rectangle, intersected with the image, by their number, and `0` when the
intersection is empty (`specMean`). -/
theorem C1_cell_character_amended (px : List (Fin 256)) (w h ow : Int)
    (hv : ValidInput px w h ow) (hsize : w * h ≤ INT_MAX) (x_char y_char : Int)
    (hx0 : 0 ≤ x_char) (hx : x_char < ow)
    (hy0 : 0 ≤ y_char) (hy : y_char < (geometry w h ow).output_height) :
    ∃ out, convert_to_ascii (some px) w h ow (some ()) = some out
      ∧ out.file[(y_char * (ow + 1) + x_char).toNat]?
          = some (map_grayscale_to_char
              (specMean px w h (geometry w h ow).block_width (geometry w h ow).block_height
                x_char y_char)) :=
  ⟨_, convert_to_ascii_valid px w h ow hv hsize,
    specText_getElem? px w h ow _ x_char y_char hx0 hx hy0 hy⟩

set_option maxRecDepth 100000 in
/-- Witness of the amended C1: a 2x2 image rendered on two columns, cell `(0, 0)`. -/
theorem C1_witness :
    ValidInput [10, 20, 30, 40] 2 2 2 ∧ (2 : Int) * 2 ≤ INT_MAX
      ∧ (0 : Int) < (geometry 2 2 2).output_height
      ∧ ∃ out, convert_to_ascii (some [10, 20, 30, 40]) 2 2 2 (some ()) = some out
        ∧ out.file[((0 : Int) * (2 + 1) + 0).toNat]?
            = some (map_grayscale_to_char
                (specMean [10, 20, 30, 40] 2 2 (geometry 2 2 2).block_width
                  (geometry 2 2 2).block_height 0 0)) :=
  ⟨⟨by decide, by decide, by decide, by decide, by decide, by decide, by decide⟩,
    by decide, by decide,
    C1_cell_character_amended [10, 20, 30, 40] 2 2 2
      ⟨by decide, by decide, by decide, by decide, by decide, by decide, by decide⟩
      (by decide) 0 0 (by decide) (by decide)
      (by decide) (by decide)⟩

/-- C3: for every integer `v`, the double-precision expression of `map_grayscale_to_char`,
evaluated at `v` clamped to `[0, 255]`, is the exact floor of `c * 12 / 255`; the final
clamp of the index leaves it unchanged; and the character returned is the one at that index
of the 13-character palette. -/
theorem C3_quantizer_is_exact_floor (v : Int) :
    ascii_palette = "@#S%?*+;:,.- ".toList ∧ ascii_palette.length = 13
      ∧ scaled_index (clamp255 v) (ascii_palette.length : Int)
          = ⌊(clamp255 v : ℚ) * 12 / 255⌋
      ∧ palette_index v = ⌊(clamp255 v : ℚ) * 12 / 255⌋
      ∧ ascii_palette[(⌊(clamp255 v : ℚ) * 12 / 255⌋).toNat]?
          = some (map_grayscale_to_char v) := by
  have hb := clamp255_bounds v
  refine ⟨rfl, by decide, ?_, ?_, ?_⟩
  · rw [ascii_palette_length, exact_floor_eq, scaled_index_eq _ hb.1 hb.2]
  · rw [exact_floor_eq, palette_index_eq]
  · rw [exact_floor_eq, ← palette_index_eq]
    exact palette_getElem?_index v

/-- C4: for every integer `v` the index used by `map_grayscale_to_char` lies in `[0, 12]`
and the character returned is one of the 13 palette characters; on valid input every
character that a call has written to the sink when it returns, the line terminators apart,
is a palette character; and the call returns when the image has at most `INT_MAX`
pixels. -/
theorem C4_emitted_characters_are_palette_members (v : Int) (px : List (Fin 256))
    (w h ow : Int) (hv : ValidInput px w h ow) :
    (0 ≤ palette_index v ∧ palette_index v ≤ 12 ∧ ascii_palette.length = 13
        ∧ map_grayscale_to_char v ∈ ascii_palette)
      ∧ (∀ out : Output, convert_to_ascii (some px) w h ow (some ()) = some out →
          ∀ ch ∈ out.file, ch ≠ newline → ch ∈ ascii_palette)
      ∧ (w * h ≤ INT_MAX → ∃ out, convert_to_ascii (some px) w h ow (some ()) = some out) := by
  refine ⟨⟨(palette_index_bounds v).1, (palette_index_bounds v).2, by decide,
    map_grayscale_to_char_mem v⟩, ?_,
    fun hsize => ⟨_, convert_to_ascii_valid px w h ow hv hsize⟩⟩
  intro out hout ch hch hn
  rcases convert_to_ascii_chars px w h ow hv.width_pos hv.height_pos hv.output_width_pos out
    hout ch hch with hnl | ⟨u, rfl⟩
  · exact absurd hnl hn
  · exact map_grayscale_to_char_mem u

/-- Witness of C4: the value 300 and a 2x2 image rendered on two columns. -/
theorem C4_witness :
    ValidInput [10, 20, 30, 40] 2 2 2
      ∧ (0 ≤ palette_index 300 ∧ palette_index 300 ≤ 12 ∧ ascii_palette.length = 13
          ∧ map_grayscale_to_char 300 ∈ ascii_palette)
      ∧ (∀ out : Output, convert_to_ascii (some [10, 20, 30, 40]) 2 2 2 (some ()) = some out →
          ∀ ch ∈ out.file, ch ≠ newline → ch ∈ ascii_palette)
      ∧ ((2 : Int) * 2 ≤ INT_MAX
          → ∃ out, convert_to_ascii (some [10, 20, 30, 40]) 2 2 2 (some ()) = some out) :=
  ⟨⟨by decide, by decide, by decide, by decide, by decide, by decide, by decide⟩,
    C4_emitted_characters_are_palette_members 300 [10, 20, 30, 40] 2 2 2
      ⟨by decide, by decide, by decide, by decide, by decide, by decide, by decide⟩⟩

set_option maxRecDepth 100000 in
/-- C5, counterexample: a 1x1 image whose only pixel is 255, rendered on two columns, gives
the row `" @"`: the second character is not `map_grayscale_to_char 255`. And a uniform image
of 32768x65536 pixels of value 255 rendered on one column gives the row `"@"`: the `int`
counter of the pixels of its only cell has wrapped around to a negative value. -/
theorem C5_counterexample :
    (ValidInput [255] 1 1 2
        ∧ (convert_to_ascii (some [255]) 1 1 2 (some ())).map Output.file
            = some [' ', '@', newline])
      ∧ (ValidInput (List.replicate 2147483648 (255 : Fin 256)) 32768 65536 1
        ∧ (convert_to_ascii (some (List.replicate 2147483648 (255 : Fin 256))) 32768 65536 1
            (some ())).map Output.file = some ['@', newline])
      ∧ '@' ≠ newline ∧ map_grayscale_to_char 255 = ' ' ∧ '@' ≠ map_grayscale_to_char 255 :=
  ⟨⟨⟨by decide, by decide, by decide, by decide, by decide, by decide, by decide⟩,
      by decide⟩,
    ⟨whole_image_valid, whole_image_text⟩, by decide, by decide, by decide⟩

/-- C5, amended: for a uniform buffer of value `c` and valid input of at most `INT_MAX`
pixels, the character of a cell in a column `x_char < img_width` is
`map_grayscale_to_char c` (all cells when `output_width ≤ img_width`); the cells of the
columns `x_char ≥ img_width` have an empty block and their character is
`map_grayscale_to_char 0`. -/
theorem C5_uniform_buffer_amended (px : List (Fin 256)) (w h ow : Int)
    (hv : ValidInput px w h ow) (hsize : w * h ≤ INT_MAX) (c : Fin 256)
    (hu : ∀ p ∈ px, p = c)
    (x_char y_char : Int) (hx0 : 0 ≤ x_char) (hx : x_char < ow)
    (hy0 : 0 ≤ y_char) (hy : y_char < (geometry w h ow).output_height) :
    ∃ out, convert_to_ascii (some px) w h ow (some ()) = some out
      ∧ out.file[(y_char * (ow + 1) + x_char).toNat]?
          = some (map_grayscale_to_char (if x_char < w then (c.val : Int) else 0)) := by
  refine ⟨_, convert_to_ascii_valid px w h ow hv hsize, ?_⟩
  rw [specText_getElem? px w h ow _ x_char y_char hx0 hx hy0 hy]
  have hiff := specBlock_ne_empty_iff px w h ow hv x_char y_char hx0 hx hy0 hy
  by_cases hxw : x_char < w
  · rw [if_pos hxw, specMean_uniform px w h _ _ x_char y_char c hv.buffer_size hu
      (hiff.2 hxw)]
  · rw [if_neg hxw, specMean_empty]
    by_contra hne
    exact hxw (hiff.1 hne)

set_option maxRecDepth 100000 in
/-- Witness of the amended C5: a uniform 2x2 image of value 200 on three columns, cell
`(2, 0)`. -/
theorem C5_witness :
    ValidInput [200, 200, 200, 200] 2 2 3 ∧ (2 : Int) * 2 ≤ INT_MAX
      ∧ (0 : Int) < (geometry 2 2 3).output_height
      ∧ ∃ out, convert_to_ascii (some [200, 200, 200, 200]) 2 2 3 (some ()) = some out
        ∧ out.file[((0 : Int) * (3 + 1) + 2).toNat]?
            = some (map_grayscale_to_char
                (if (2 : Int) < 2 then (((200 : Fin 256)).val : Int) else 0)) :=
  ⟨⟨by decide, by decide, by decide, by decide, by decide, by decide, by decide⟩,
    by decide, by decide,
    C5_uniform_buffer_amended [200, 200, 200, 200] 2 2 3
      ⟨by decide, by decide, by decide, by decide, by decide, by decide, by decide⟩
      (by decide) 200 (by decide) 2 0
      (by decide) (by decide) (by decide) (by decide)⟩

/-- C6: the quantizer is monotone: for integers `v1 ≤ v2` (in `[0, 255]` or not) the
palette index of `v1` is at most the palette index of `v2`. -/
theorem C6_quantizer_monotone (v1 v2 : Int) (h : v1 ≤ v2) :
    palette_index v1 ≤ palette_index v2 := by
  rw [palette_index_eq, palette_index_eq]
  unfold clamp255
  omega

set_option maxRecDepth 100000 in
/-- Witness of C6: the values 10 and 200. -/
theorem C6_witness : (10 : Int) ≤ 200 ∧ palette_index 10 ≤ palette_index 200 :=
  ⟨by decide, C6_quantizer_monotone 10 200 (by decide)⟩

set_option maxRecDepth 100000 in
/-- C7: `map_grayscale_to_char 0` is the darkest palette character `'@'`, at index 0, and
`map_grayscale_to_char 255` is the lightest one, the space, at the last index 12. -/
theorem C7_quantizer_extremes :
    palette_index 0 = 0 ∧ map_grayscale_to_char 0 = '@' ∧ ascii_palette.head? = some '@'
      ∧ palette_index 255 = 12 ∧ map_grayscale_to_char 255 = ' '
      ∧ ascii_palette.getLast? = some ' ' ∧ ascii_palette.length = 13 := by
  decide

/-- C8: the clamping law: a negative value is quantized like 0 and a value above 255 like
255. -/
theorem C8_quantizer_clamping_law (v1 v2 : Int) (h1 : v1 < 0) (h2 : v2 > 255) :
    map_grayscale_to_char v1 = map_grayscale_to_char 0
      ∧ map_grayscale_to_char v2 = map_grayscale_to_char 255 := by
  have e1 : palette_index v1 = palette_index 0 := by
    rw [palette_index_eq, palette_index_eq]; unfold clamp255; omega
  have e2 : palette_index v2 = palette_index 255 := by
    rw [palette_index_eq, palette_index_eq]; unfold clamp255; omega
  unfold map_grayscale_to_char
  rw [e1, e2]
  exact ⟨rfl, rfl⟩

/-- Witness of C8: the values -5 and 300. -/
theorem C8_witness :
    (-5 : Int) < 0 ∧ (300 : Int) > 255
      ∧ map_grayscale_to_char (-5) = map_grayscale_to_char 0
      ∧ map_grayscale_to_char 300 = map_grayscale_to_char 255 :=
  ⟨by decide, by decide, C8_quantizer_clamping_law (-5) 300 (by decide) (by decide)⟩

set_option maxRecDepth 100000 in
/-- C10, counterexample: a 1x1 image rendered on one column has no output cell at all, so
its only pixel lies in no block; and in a 3x2 image rendered on two columns the pixel of
row 0, column 2 lies in the block of no cell. -/
theorem C10_counterexample :
    (ValidInput [7] 1 1 1
        ∧ ¬ ∃ x y : Int, (0 ≤ x ∧ x < 1) ∧ (0 ≤ y ∧ y < (geometry 1 1 1).output_height)
          ∧ ((0 : Int), (0 : Int)) ∈ sourceBlock 1 1 (geometry 1 1 1).block_width
              (geometry 1 1 1).block_height x y)
      ∧ (ValidInput [1, 2, 3, 4, 5, 6] 3 2 2
        ∧ ¬ ∃ x y : Int, (0 ≤ x ∧ x < 2) ∧ (0 ≤ y ∧ y < (geometry 3 2 2).output_height)
          ∧ ((0 : Int), (2 : Int)) ∈ sourceBlock 3 2 (geometry 3 2 2).block_width
              (geometry 3 2 2).block_height x y) := by
  have g1 : geometry 1 1 1 = ⟨1, 2, 0⟩ := by decide
  have g2 : geometry 3 2 2 = ⟨1, 2, 1⟩ := by decide
  refine ⟨⟨⟨by decide, by decide, by decide, by decide, by decide, by decide, by decide⟩, ?_⟩,
    ⟨⟨by decide, by decide, by decide, by decide, by decide, by decide, by decide⟩, ?_⟩⟩
  · rintro ⟨x, y, _, hy, _⟩
    rw [g1] at hy
    simp only [] at hy
    omega
  · rintro ⟨x, y, hx, hy, hm⟩
    rw [g2] at hm
    rw [mem_sourceBlock] at hm
    simp only [] at hm
    omega

/-- C10, amended: on valid input, a pixel `(r, c)` of the image lies inside the source block
of some output cell exactly when `r < output_height * block_height` and
`c < output_width * block_width`; the pixels of the leftover rows and columns lie in no
block. -/
theorem C10_block_grid_coverage_amended (px : List (Fin 256)) (w h ow : Int)
    (hv : ValidInput px w h ow) (r c : Int) (hr0 : 0 ≤ r) (hr : r < h) (hc0 : 0 ≤ c)
    (hc : c < w) :
    (∃ x_char y_char : Int, (0 ≤ x_char ∧ x_char < ow)
        ∧ (0 ≤ y_char ∧ y_char < (geometry w h ow).output_height)
        ∧ (r, c) ∈ sourceBlock w h (geometry w h ow).block_width
            (geometry w h ow).block_height x_char y_char)
      ↔ (r < (geometry w h ow).output_height * (geometry w h ow).block_height
          ∧ c < ow * (geometry w h ow).block_width) := by
  have _ := hr
  constructor
  · rintro ⟨x, y, hx, hy, hm⟩
    exact sourceBlock_in_grid px w h ow hv x y hx.1 hx.2 hy.1 hy.2 r c hm
  · rintro ⟨hrr, hcc⟩
    exact sourceBlock_of_grid_pixel px w h ow hv r c hr0 hc0 hc hrr hcc

set_option maxRecDepth 100000 in
/-- Witness of the amended C10: the pixel of row 1, column 1 of a 2x2 image rendered on two
columns. -/
theorem C10_witness :
    ValidInput [10, 20, 30, 40] 2 2 2
      ∧ ((∃ x_char y_char : Int, (0 ≤ x_char ∧ x_char < 2)
          ∧ (0 ≤ y_char ∧ y_char < (geometry 2 2 2).output_height)
          ∧ ((1 : Int), (1 : Int)) ∈ sourceBlock 2 2 (geometry 2 2 2).block_width
              (geometry 2 2 2).block_height x_char y_char)
        ↔ ((1 : Int) < (geometry 2 2 2).output_height * (geometry 2 2 2).block_height
            ∧ (1 : Int) < 2 * (geometry 2 2 2).block_width)) :=
  ⟨⟨by decide, by decide, by decide, by decide, by decide, by decide, by decide⟩,
    C10_block_grid_coverage_amended [10, 20, 30, 40] 2 2 2
      ⟨by decide, by decide, by decide, by decide, by decide, by decide, by decide⟩
      1 1 (by decide) (by decide)
      (by decide) (by decide)⟩

/-! ## Claims on the block grid -/

/-- C11: on valid input, the sets of pixels read for two distinct cells are disjoint: no
pixel is summed for two cells. -/
theorem C11_blocks_of_distinct_cells_are_disjoint (px : List (Fin 256)) (w h ow : Int)
    (hv : ValidInput px w h ow) (x1 y1 x2 y2 : Int) (hne : (x1, y1) ≠ (x2, y2)) :
    Disjoint
      (sourceBlock w h (geometry w h ow).block_width (geometry w h ow).block_height x1 y1)
      (sourceBlock w h (geometry w h ow).block_width (geometry w h ow).block_height x2 y2) := by
  obtain ⟨hbw, _⟩ :=
    geometry_basic w h ow hv.width_pos hv.width_int hv.output_width_pos hv.height_pos
      hv.height_int
  rw [Finset.disjoint_left]
  rintro ⟨r, c⟩ h1 h2
  rw [mem_sourceBlock] at h1 h2
  have hbh : 0 < (geometry w h ow).block_height := by omega
  have hcases : x1 < x2 ∨ x2 < x1 ∨ y1 < y2 ∨ y2 < y1 := by
    by_contra hc
    apply hne
    have hx : x1 = x2 := by omega
    have hy : y1 = y2 := by omega
    rw [hx, hy]
  rcases hcases with hlt | hlt | hlt | hlt
  · have := block_le_next _ x1 x2 hbw hlt
    omega
  · have := block_le_next _ x2 x1 hbw hlt
    omega
  · have := block_le_next _ y1 y2 hbh hlt
    omega
  · have := block_le_next _ y2 y1 hbh hlt
    omega

set_option maxRecDepth 100000 in
/-- Witness of C11: the cells `(0, 0)` and `(1, 0)` of a 2x2 image rendered on two columns. -/
theorem C11_witness :
    ValidInput [10, 20, 30, 40] 2 2 2 ∧ ((0 : Int), (0 : Int)) ≠ ((1 : Int), (0 : Int))
      ∧ Disjoint
        (sourceBlock 2 2 (geometry 2 2 2).block_width (geometry 2 2 2).block_height 0 0)
        (sourceBlock 2 2 (geometry 2 2 2).block_width (geometry 2 2 2).block_height 1 0) :=
  ⟨⟨by decide, by decide, by decide, by decide, by decide, by decide, by decide⟩, by decide,
    C11_blocks_of_distinct_cells_are_disjoint [10, 20, 30, 40] 2 2 2
      ⟨by decide, by decide, by decide, by decide, by decide, by decide, by decide⟩
      0 0 1 0 (by decide)⟩

set_option maxRecDepth 100000 in
/-- C13, counterexample: a 2x2 image rendered on 10 columns has `block_width = 1` and
`block_height = 1`, which is not twice the block width. And an image of 1073741824x1 pixels
rendered on one column has `block_width = 1073741824` and `block_height = INT_MIN`: twice
the block width does not fit an `int`. -/
theorem C13_counterexample :
    (ValidInput [1, 2, 3, 4] 2 2 10
        ∧ (geometry 2 2 10).block_width = 1 ∧ (geometry 2 2 10).block_height = 1
        ∧ (geometry 2 2 10).block_height ≠ 2 * (geometry 2 2 10).block_width
        ∧ (geometry 2 2 10).block_height
            ≠ Double.toInt (Double.mul (Double.ofInt (geometry 2 2 10).block_width)
                (Double.ofInt 2)))
      ∧ (ValidInput (List.replicate 1073741824 (0 : Fin 256)) 1073741824 1 1
        ∧ (1 : Int) ≤ 1073741824
        ∧ (geometry 1073741824 1 1).block_width = 1073741824
        ∧ (geometry 1073741824 1 1).block_height = -2147483648
        ∧ (geometry 1073741824 1 1).block_height
            ≠ 2 * (geometry 1073741824 1 1).block_width) :=
  ⟨⟨⟨by decide, by decide, by decide, by decide, by decide, by decide, by decide⟩,
      by decide, by decide, by decide, by decide⟩,
    ⟨wide_image_valid, by decide, by rw [wide_image_geometry], by rw [wide_image_geometry],
      by rw [wide_image_geometry]; decide⟩⟩

/-- C13, amended: on valid input the block width is `floor(img_width / output_width)`,
clamped up to 1 when it is 0, which is when `output_width > img_width`; the block height
is the conversion to `int` of that quotient, before its clamp, times `2.0`, clamped to 1
when it is 0, and the conversion gives twice the quotient when that fits an `int`; so the
block height is twice the block width when `output_width ≤ img_width` and twice the block
width fits an `int`, and both are 1 when `output_width > img_width`. -/
theorem C13_geometry_derivation_amended (px : List (Fin 256)) (w h ow : Int)
    (hv : ValidInput px w h ow) :
    (geometry w h ow).block_width = (if w / ow = 0 then 1 else w / ow)
      ∧ (w / ow = 0 ↔ w < ow)
      ∧ (geometry w h ow).block_height
          = (if Double.toInt (Double.mul (Double.ofInt (w / ow)) (Double.ofInt 2)) = 0 then 1
              else Double.toInt (Double.mul (Double.ofInt (w / ow)) (Double.ofInt 2)))
      ∧ (2 * (w / ow) ≤ INT_MAX →
          Double.toInt (Double.mul (Double.ofInt (w / ow)) (Double.ofInt 2)) = 2 * (w / ow))
      ∧ (ow ≤ w → 2 * (w / ow) ≤ INT_MAX →
          (geometry w h ow).block_height = 2 * (geometry w h ow).block_width)
      ∧ (w < ow → (geometry w h ow).block_width = 1 ∧ (geometry w h ow).block_height = 1) := by
  have hw := hv.width_pos
  have how := hv.output_width_pos
  have hwi : w ≤ 2147483647 := hv.width_int
  obtain ⟨_, _, _, _, _, hle, hfit, _, hgt⟩ :=
    geometry_basic w h ow hw hv.width_int how hv.height_pos hv.height_int
  have hq0 : 0 ≤ w / ow := Int.ediv_nonneg (le_of_lt hw) (le_of_lt how)
  have hqw : w / ow ≤ w := Int.ediv_le_self _ (le_of_lt hw)
  have hzero : w / ow = 0 ↔ w < ow := by
    constructor
    · intro hz
      by_contra hc
      have : 1 ≤ w / ow := by
        rw [Int.le_ediv_iff_mul_le how]; omega
      omega
    · intro hlt
      exact Int.ediv_eq_zero_of_lt (le_of_lt hw) hlt
  refine ⟨(geometry_eq w h ow hw hv.width_int how).1, hzero, ?_, ?_, ?_, hgt⟩
  · unfold geometry
    simp only [Int.tdiv_eq_ediv (le_of_lt hw) (le_of_lt how)]
  · intro hf
    rw [toInt_mul_two (w / ow) hq0 (by norm_num; omega), if_pos hf]
  · intro hc hf
    rw [hfit hc hf, (hle hc).1]

/-- Witness of the amended C13: a 6x4 image rendered on three columns. -/
theorem C13_witness :
    ValidInput (List.replicate 24 0) 6 4 3
      ∧ (geometry 6 4 3).block_width = (if (6 : Int) / 3 = 0 then 1 else 6 / 3)
      ∧ ((6 : Int) / 3 = 0 ↔ (6 : Int) < 3)
      ∧ (geometry 6 4 3).block_height
          = (if Double.toInt (Double.mul (Double.ofInt (6 / 3)) (Double.ofInt 2)) = 0 then 1
              else Double.toInt (Double.mul (Double.ofInt (6 / 3)) (Double.ofInt 2)))
      ∧ (2 * ((6 : Int) / 3) ≤ INT_MAX →
          Double.toInt (Double.mul (Double.ofInt (6 / 3)) (Double.ofInt 2)) = 2 * (6 / 3))
      ∧ ((3 : Int) ≤ 6 → 2 * ((6 : Int) / 3) ≤ INT_MAX →
          (geometry 6 4 3).block_height = 2 * (geometry 6 4 3).block_width)
      ∧ ((6 : Int) < 3 → (geometry 6 4 3).block_width = 1
          ∧ (geometry 6 4 3).block_height = 1) :=
  ⟨⟨by decide, by decide, by decide, by decide, by decide, by decide, by decide⟩,
    C13_geometry_derivation_amended (List.replicate 24 0) 6 4 3
      ⟨by decide, by decide, by decide, by decide, by decide, by decide, by decide⟩⟩

set_option maxRecDepth 100000 in
/-- C14, counterexample: for the 4x4 buffer of zeros and `output_width = 2` the geometry is
`block_width = 2`, `block_height = 4`, `output_height = 1`, and the text written is not
the two lines `"@@"`, `"@@"`. -/
theorem C14_counterexample :
    ValidInput (List.replicate 16 0) 4 4 2
      ∧ geometry 4 4 2 = ⟨2, 4, 1⟩
      ∧ (convert_to_ascii (some (List.replicate 16 0)) 4 4 2 (some ())).map Output.file
          ≠ some (textOfRows [['@', '@'], ['@', '@']]) :=
  ⟨⟨by decide, by decide, by decide, by decide, by decide, by decide, by decide⟩,
    by decide, by decide⟩

set_option maxRecDepth 100000 in
/-- C14, amended: converting the 4x4 buffer of zeros with `output_width = 2` writes one
line of two columns, both the darkest palette character `'@'`. -/
theorem C14_scenario_one_amended :
    (convert_to_ascii (some (List.replicate 16 0)) 4 4 2 (some ())).map Output.file
        = some (textOfRows [['@', '@']])
      ∧ textOfRows [['@', '@']] = ['@', '@', newline]
      ∧ map_grayscale_to_char 0 = '@' ∧ ascii_palette.head? = some '@' := by
  decide

set_option maxRecDepth 100000 in
/-- C15, counterexample: for a 1x1 image rendered on two columns, the cell `(1, 0)` of the
grid ends its loops with `total_brightness = 0` and `pixel_count = 0`. And for an image of
32768x65536 pixels of value 255 rendered on one column, the only cell, in column
`0 < img_width`, ends its loops with `pixel_count = -2147483648`, which is not positive, and
takes the default brightness 0. -/
theorem C15_counterexample :
    (ValidInput [255] 1 1 2 ∧ (1 : Int) < 2 ∧ (0 : Int) < (geometry 1 1 2).output_height
        ∧ cellTotals [255] 1 1 (geometry 1 1 2).block_width (geometry 1 1 2).block_height 1 0
            = some (0, 0))
      ∧ (ValidInput (List.replicate 2147483648 (255 : Fin 256)) 32768 65536 1
        ∧ geometry 32768 65536 1 = ⟨32768, 65536, 1⟩ ∧ (0 : Int) < 32768
        ∧ cellTotals (List.replicate 2147483648 (255 : Fin 256)) 32768 65536 32768 65536 0 0
            = some (547608330240, -2147483648)
        ∧ ¬ ((0 : Int) < -2147483648)
        ∧ average_grayscale (List.replicate 2147483648 (255 : Fin 256)) 32768 65536 32768
            65536 0 0 = some 0) := by
  refine ⟨⟨⟨by decide, by decide, by decide, by decide, by decide, by decide, by decide⟩,
      by decide, by decide, by decide⟩,
    ⟨whole_image_valid, whole_image_geometry, by decide, whole_image_totals, by decide, ?_⟩⟩
  rw [average_grayscale_eq_cellTotals, whole_image_totals]
  rfl

/-- C15, amended: on valid input of at most `INT_MAX` pixels, the block of a cell of the
grid contains at least one pixel exactly when `x_char < img_width`; so no block is empty when
`output_width ≤ img_width`, and when `output_width > img_width` the cells of the columns
`x_char ≥ img_width` have `pixel_count = 0` and take the default brightness 0. -/
theorem C15_block_nonempty_amended (px : List (Fin 256)) (w h ow : Int)
    (hv : ValidInput px w h ow) (hsize : w * h ≤ INT_MAX) (x_char y_char : Int)
    (hx0 : 0 ≤ x_char) (hx : x_char < ow)
    (hy0 : 0 ≤ y_char) (hy : y_char < (geometry w h ow).output_height) :
    ∃ total_brightness pixel_count : Int,
      cellTotals px w h (geometry w h ow).block_width (geometry w h ow).block_height
          x_char y_char = some (total_brightness, pixel_count)
        ∧ (0 < pixel_count ↔ x_char < w)
        ∧ (ow ≤ w → 0 < pixel_count)
        ∧ (w ≤ x_char → pixel_count = 0
            ∧ average_grayscale px w h (geometry w h ow).block_width
                (geometry w h ow).block_height x_char y_char = some 0) := by
  have hiff := specBlock_ne_empty_iff px w h ow hv x_char y_char hx0 hx hy0 hy
  rw [← sourceBlock_eq_specBlock, ← Finset.nonempty_iff_ne_empty, ← Finset.card_pos] at hiff
  have hcount : (0 : Int) < ((sourceBlock w h (geometry w h ow).block_width
      (geometry w h ow).block_height x_char y_char).card : Int) ↔ x_char < w := by
    rw [← hiff]; exact Int.natCast_pos
  have hw0 := le_of_lt hv.width_pos
  have hh0 := le_of_lt hv.height_pos
  refine ⟨_, _, cellTotals_eq px w h _ _ x_char y_char hv.buffer_size hw0 hh0 hsize, hcount,
    ?_, ?_⟩
  · intro hle
    exact hcount.2 (by omega)
  · intro hge
    have hz : ((sourceBlock w h (geometry w h ow).block_width
        (geometry w h ow).block_height x_char y_char).card : Int) = 0 := by
      have : ¬ (0 : Int) < ((sourceBlock w h (geometry w h ow).block_width
          (geometry w h ow).block_height x_char y_char).card : Int) := by
        rw [hcount]; omega
      omega
    refine ⟨hz, ?_⟩
    rw [average_grayscale_eq_cellTotals,
      cellTotals_eq px w h _ _ x_char y_char hv.buffer_size hw0 hh0 hsize, hz]
    rfl

set_option maxRecDepth 100000 in
/-- Witness of the amended C15: the cell `(1, 0)` of a 2x2 image rendered on two columns. -/
theorem C15_witness :
    ValidInput [10, 20, 30, 40] 2 2 2 ∧ (2 : Int) * 2 ≤ INT_MAX
      ∧ (0 : Int) < (geometry 2 2 2).output_height
      ∧ ∃ total_brightness pixel_count : Int,
        cellTotals [10, 20, 30, 40] 2 2 (geometry 2 2 2).block_width
            (geometry 2 2 2).block_height 1 0 = some (total_brightness, pixel_count)
          ∧ (0 < pixel_count ↔ (1 : Int) < 2)
          ∧ ((2 : Int) ≤ 2 → 0 < pixel_count)
          ∧ ((2 : Int) ≤ 1 → pixel_count = 0
              ∧ average_grayscale [10, 20, 30, 40] 2 2 (geometry 2 2 2).block_width
                  (geometry 2 2 2).block_height 1 0 = some 0) :=
  ⟨⟨by decide, by decide, by decide, by decide, by decide, by decide, by decide⟩,
    by decide, by decide,
    C15_block_nonempty_amended [10, 20, 30, 40] 2 2 2
      ⟨by decide, by decide, by decide, by decide, by decide, by decide, by decide⟩
      (by decide) 1 0 (by decide) (by decide)
      (by decide) (by decide)⟩

/-- C16, counterexample: a null buffer, a zero width, a zero height, a zero requested width
and a null sink all give the same result: the same message on the standard error stream
and nothing else. -/
theorem C16_counterexample :
    convert_to_ascii none 1 1 1 (some ()) = convert_to_ascii (some [7]) 0 1 1 (some ())
      ∧ convert_to_ascii (some [7]) 0 1 1 (some ())
          = convert_to_ascii (some [7]) 1 0 1 (some ())
      ∧ convert_to_ascii (some [7]) 1 0 1 (some ())
          = convert_to_ascii (some [7]) 1 1 0 (some ())
      ∧ convert_to_ascii (some [7]) 1 1 0 (some ()) = convert_to_ascii (some [7]) 1 1 1 none
      ∧ convert_to_ascii (some [7]) 1 1 1 none
          = some ⟨[], "Error: Invalid input for ASCII conversion.\n".toList, []⟩ := by
  decide

/-- C16, amended: every failure condition of `convert_to_ascii` is reported the same way,
by the one message `Error: Invalid input for ASCII conversion.` on the standard error
stream and nothing else: two invalid calls give equal results, so the caller cannot tell
which condition failed. -/
theorem C16_single_error_report_amended (pixel_data1 pixel_data2 : Option (List (Fin 256)))
    (w1 h1 ow1 w2 h2 ow2 : Int) (output_file1 output_file2 : Option Unit)
    (hinv1 : pixel_data1 = none ∨ w1 ≤ 0 ∨ h1 ≤ 0 ∨ ow1 ≤ 0 ∨ output_file1 = none)
    (hinv2 : pixel_data2 = none ∨ w2 ≤ 0 ∨ h2 ≤ 0 ∨ ow2 ≤ 0 ∨ output_file2 = none) :
    convert_to_ascii pixel_data1 w1 h1 ow1 output_file1
        = convert_to_ascii pixel_data2 w2 h2 ow2 output_file2
      ∧ convert_to_ascii pixel_data1 w1 h1 ow1 output_file1
        = some ⟨[], "Error: Invalid input for ASCII conversion.\n".toList, []⟩ := by
  rw [convert_to_ascii_invalid _ _ _ _ _ hinv1, convert_to_ascii_invalid _ _ _ _ _ hinv2]
  exact ⟨rfl, rfl⟩

/-- Witness of the amended C16: a null buffer and a negative height. -/
theorem C16_witness :
    convert_to_ascii none 3 3 3 (some ()) = convert_to_ascii (some [1, 2]) 2 (-1) 2 (some ())
      ∧ convert_to_ascii none 3 3 3 (some ())
        = some ⟨[], "Error: Invalid input for ASCII conversion.\n".toList, []⟩ :=
  C16_single_error_report_amended none (some [1, 2]) 3 3 3 2 (-1) 2 (some ()) (some ())
    (Or.inl rfl) (Or.inr (Or.inr (Or.inl (by decide))))

/-! ## Claims on the accumulators and the reads -/

/-- C17: on valid input with `img_width * img_height ≤ INT_MAX`, the accumulators of every
cell satisfy `0 ≤ total_brightness ≤ 255 * pixel_count ≤ 255 * img_width * img_height
< 2 ^ 63` and `0 ≤ pixel_count ≤ img_width * img_height ≤ INT_MAX`, and the mean lies in
`[0, 255]`. -/
theorem C17_accumulator_cannot_overflow (px : List (Fin 256)) (w h ow : Int)
    (hv : ValidInput px w h ow) (hsize : w * h ≤ INT_MAX) (x_char y_char : Int) :
    ∃ total_brightness pixel_count mean : Int,
      cellTotals px w h (geometry w h ow).block_width (geometry w h ow).block_height
          x_char y_char = some (total_brightness, pixel_count)
        ∧ (0 ≤ total_brightness ∧ total_brightness ≤ 255 * pixel_count
            ∧ 255 * pixel_count ≤ 255 * (w * h) ∧ 255 * (w * h) < 2 ^ 63)
        ∧ (0 ≤ pixel_count ∧ pixel_count ≤ w * h ∧ pixel_count ≤ INT_MAX)
        ∧ average_grayscale px w h (geometry w h ow).block_width
            (geometry w h ow).block_height x_char y_char = some mean
        ∧ 0 ≤ mean ∧ mean ≤ 255 := by
  have hs := sum_sourceBlock_bounds px w h (geometry w h ow).block_width
    (geometry w h ow).block_height x_char y_char
  have hc := card_sourceBlock_le w h (geometry w h ow).block_width
    (geometry w h ow).block_height x_char y_char (le_of_lt hv.width_pos)
    (le_of_lt hv.height_pos)
  have hc0 : (0 : Int) ≤ ((sourceBlock w h (geometry w h ow).block_width
      (geometry w h ow).block_height x_char y_char).card : Int) := Int.natCast_nonneg _
  have heq := cellTotals_eq px w h (geometry w h ow).block_width
    (geometry w h ow).block_height x_char y_char hv.buffer_size (le_of_lt hv.width_pos)
    (le_of_lt hv.height_pos) hsize
  generalize Finset.sum (sourceBlock w h (geometry w h ow).block_width
    (geometry w h ow).block_height x_char y_char) (fun p => pixelAt px (p.1 * w + p.2)) = T
    at hs heq
  generalize ((sourceBlock w h (geometry w h ow).block_width
    (geometry w h ow).block_height x_char y_char).card : Int) = N at hs hc hc0 heq
  have hmax : w * h ≤ 2147483647 := hsize
  have hmean := mean_bounds T N hs.1 hs.2 hc0
  refine ⟨T, N, if N > 0 then Int.tdiv T N else 0, heq,
    ⟨hs.1, hs.2, by omega, by norm_num; omega⟩, ⟨hc0, hc, le_trans hc hsize⟩, ?_,
    hmean.2.1, hmean.2.2⟩
  rw [average_grayscale_eq_cellTotals, heq]
  simp only [Option.map_some']
  rw [hmean.1]

set_option maxRecDepth 100000 in
/-- Witness of C17: the cell `(0, 0)` of a 2x2 image rendered on two columns. -/
theorem C17_witness :
    ValidInput [10, 20, 30, 40] 2 2 2 ∧ (2 : Int) * 2 ≤ INT_MAX
      ∧ ∃ total_brightness pixel_count mean : Int,
        cellTotals [10, 20, 30, 40] 2 2 (geometry 2 2 2).block_width
            (geometry 2 2 2).block_height 0 0 = some (total_brightness, pixel_count)
          ∧ (0 ≤ total_brightness ∧ total_brightness ≤ 255 * pixel_count
              ∧ 255 * pixel_count ≤ 255 * (2 * 2) ∧ 255 * ((2 : Int) * 2) < 2 ^ 63)
          ∧ (0 ≤ pixel_count ∧ pixel_count ≤ 2 * 2 ∧ pixel_count ≤ INT_MAX)
          ∧ average_grayscale [10, 20, 30, 40] 2 2 (geometry 2 2 2).block_width
              (geometry 2 2 2).block_height 0 0 = some mean
          ∧ 0 ≤ mean ∧ mean ≤ 255 :=
  ⟨⟨by decide, by decide, by decide, by decide, by decide, by decide, by decide⟩,
    by decide,
    C17_accumulator_cannot_overflow [10, 20, 30, 40] 2 2 2
      ⟨by decide, by decide, by decide, by decide, by decide, by decide, by decide⟩
      (by decide) 0 0⟩

/-- C18, counterexample: for an image of 32769x65538 pixels rendered on one column, the
body of the inner loop runs at the position `(65534, 2)` of the only cell, which passes the
bounds test, but its `int` index `65534 * 32769 + 2` has wrapped around to `-2147483648`:
the read is outside the buffer and the call does not run to the end. -/
theorem C18_counterexample :
    ValidInput (List.replicate (32769 * 65538) (0 : Fin 256)) 32769 65538 1
      ∧ geometry 32769 65538 1 = ⟨32769, 65538, 1⟩
      ∧ (∃ visits, cellVisits 32769 65538 32769 65538 0 0 = some visits
          ∧ ((65534 : Int), (2 : Int)) ∈ visits)
      ∧ ((0 : Int) ≤ 2 ∧ (2 : Int) < 32769 ∧ (0 : Int) ≤ 65534 ∧ (65534 : Int) < 65538)
      ∧ pixelIndex 32769 65534 2 = -2147483648
      ∧ readPixel (List.replicate (32769 * 65538) (0 : Fin 256)) (pixelIndex 32769 65534 2)
          = none
      ∧ convert_to_ascii (some (List.replicate (32769 * 65538) (0 : Fin 256))) 32769 65538 1
          (some ()) = none := by
  refine ⟨overflow_image_valid, overflow_image_geometry, ?_, by decide,
    overflow_image_read.1, overflow_image_read.2, overflow_image_fails⟩
  obtain ⟨visits, hvis, hmem⟩ := cellVisits_spec 32769 65538 32769 65538 0 0
  refine ⟨visits, hvis, (hmem 65534 2).2 ?_⟩
  simp only [current_block_size]
  norm_num

/-- C18, amended: on valid input of at most `INT_MAX` pixels, every position
`(y_pixel, x_pixel)` at which the body of the inner loop runs for a cell of a row of the
grid passes the bounds test of the body, its `int` index is `y_pixel * img_width + x_pixel`
and lies in `[0, img_width * img_height)`, inside the buffer, and the read succeeds; the
positions visited are exactly the pixels read (the test skips none), and the whole
conversion runs without a read outside the buffer. -/
theorem C18_every_read_in_bounds_amended (px : List (Fin 256)) (w h ow : Int)
    (hv : ValidInput px w h ow) (hsize : w * h ≤ INT_MAX) (x_char y_char : Int)
    (hx0 : 0 ≤ x_char) (hy0 : 0 ≤ y_char) (hy : y_char < (geometry w h ow).output_height) :
    ∃ visits, cellVisits w h (geometry w h ow).block_width (geometry w h ow).block_height
        x_char y_char = some visits
      ∧ (∀ p ∈ visits, (0 ≤ p.2 ∧ p.2 < w ∧ 0 ≤ p.1 ∧ p.1 < h)
          ∧ pixelIndex w p.1 p.2 = p.1 * w + p.2
          ∧ (0 ≤ pixelIndex w p.1 p.2 ∧ pixelIndex w p.1 p.2 < w * h)
          ∧ pixelIndex w p.1 p.2 < (px.length : Int)
          ∧ readPixel px (pixelIndex w p.1 p.2) = some (pixelAt px (p.1 * w + p.2)))
      ∧ (∀ p, p ∈ visits ↔ p ∈ sourceBlock w h (geometry w h ow).block_width
          (geometry w h ow).block_height x_char y_char)
      ∧ ∃ out, convert_to_ascii (some px) w h ow (some ()) = some out := by
  obtain ⟨hsx, hxr, hsy, hyr, hcbh⟩ :=
    cell_ranges_in_image px w h ow hv x_char y_char hx0 hy0 hy
  obtain ⟨visits, hvis, hmem⟩ := cellVisits_spec w h (geometry w h ow).block_width
    (geometry w h ow).block_height x_char y_char
  rw [hcbh] at hmem
  have hmax : w * h ≤ 2147483647 := hsize
  have hguard : ∀ p ∈ visits, 0 ≤ p.2 ∧ p.2 < w ∧ 0 ≤ p.1 ∧ p.1 < h := by
    rintro ⟨yp, xp⟩ hp
    have := (hmem yp xp).1 hp
    simp only []
    omega
  refine ⟨visits, hvis, ?_, ?_, _, convert_to_ascii_valid px w h ow hv hsize⟩
  · intro p hp
    have hg := hguard p hp
    have hb := index_in_bounds w h p.2 p.1 hg.1 hg.2.1 hg.2.2.1 hg.2.2.2
    have hlen := hv.buffer_size
    have hidx := pixelIndex_eq w h p.2 p.1 (by omega) hg.1 hg.2.1 hg.2.2.1 hg.2.2.2
    rw [hidx]
    exact ⟨hg, rfl, hb, by omega, readPixel_eq px _ hb.1 (by omega)⟩
  · rintro ⟨yp, xp⟩
    rw [mem_sourceBlock]
    constructor
    · intro hp
      have hg := hguard _ hp
      have := (hmem yp xp).1 hp
      simp only [] at hg
      unfold current_block_size at this
      split_ifs at this <;> omega
    · intro hp
      apply (hmem yp xp).2
      unfold current_block_size
      split_ifs <;> omega

set_option maxRecDepth 100000 in
/-- Witness of the amended C18: the cell `(1, 0)` of a 2x2 image rendered on two columns. -/
theorem C18_witness :
    ValidInput [10, 20, 30, 40] 2 2 2 ∧ (2 : Int) * 2 ≤ INT_MAX
      ∧ (0 : Int) < (geometry 2 2 2).output_height
      ∧ ∃ visits, cellVisits 2 2 (geometry 2 2 2).block_width (geometry 2 2 2).block_height
          1 0 = some visits
        ∧ (∀ p ∈ visits, (0 ≤ p.2 ∧ p.2 < 2 ∧ 0 ≤ p.1 ∧ p.1 < 2)
            ∧ pixelIndex 2 p.1 p.2 = p.1 * 2 + p.2
            ∧ (0 ≤ pixelIndex 2 p.1 p.2 ∧ pixelIndex 2 p.1 p.2 < 2 * 2)
            ∧ pixelIndex 2 p.1 p.2 < (([10, 20, 30, 40] : List (Fin 256)).length : Int)
            ∧ readPixel [10, 20, 30, 40] (pixelIndex 2 p.1 p.2)
                = some (pixelAt [10, 20, 30, 40] (p.1 * 2 + p.2)))
        ∧ (∀ p, p ∈ visits ↔ p ∈ sourceBlock 2 2 (geometry 2 2 2).block_width
            (geometry 2 2 2).block_height 1 0)
        ∧ ∃ out, convert_to_ascii (some [10, 20, 30, 40]) 2 2 2 (some ()) = some out :=
  ⟨⟨by decide, by decide, by decide, by decide, by decide, by decide, by decide⟩,
    by decide, by decide,
    C18_every_read_in_bounds_amended [10, 20, 30, 40] 2 2 2
      ⟨by decide, by decide, by decide, by decide, by decide, by decide, by decide⟩
      (by decide) 1 0 (by decide) (by decide) (by decide)⟩

/-- C19, counterexample: for an image of 32768x65536 pixels of value 255 rendered on one
column, the only cell, in column `0 < img_width`, ends its loops with
`pixel_count = -2147483648`, which is neither `block_width * block_height` nor 0, and it is
written as `'@'` although its pixels are all 255. -/
theorem C19_counterexample :
    ValidInput (List.replicate 2147483648 (255 : Fin 256)) 32768 65536 1
      ∧ geometry 32768 65536 1 = ⟨32768, 65536, 1⟩
      ∧ cellTotals (List.replicate 2147483648 (255 : Fin 256)) 32768 65536 32768 65536 0 0
          = some (547608330240, -2147483648)
      ∧ (-2147483648 : Int) ≠ 32768 * 65536 ∧ (-2147483648 : Int) ≠ 0
      ∧ (0 : Int) < 32768
      ∧ (convert_to_ascii (some (List.replicate 2147483648 (255 : Fin 256))) 32768 65536 1
          (some ())).map Output.file = some ['@', newline] :=
  ⟨whole_image_valid, whole_image_geometry, whole_image_totals, by decide, by decide,
    by decide, whole_image_text⟩

/-- C19, amended: on valid input of at most `INT_MAX` pixels, for every cell of the grid the
number of pixels averaged is
`block_width * block_height` or 0; the vertical clip does not fire; the number is 0
exactly when `x_char ≥ img_width`, which needs `output_width > img_width`, where
`block_width = block_height = 1`, and the character of that cell is `'@'`. -/
theorem C19_blocks_full_or_empty_amended (px : List (Fin 256)) (w h ow : Int)
    (hv : ValidInput px w h ow) (hsize : w * h ≤ INT_MAX) (x_char y_char : Int)
    (hx0 : 0 ≤ x_char) (hx : x_char < ow)
    (hy0 : 0 ≤ y_char) (hy : y_char < (geometry w h ow).output_height) :
    ∃ (total_brightness pixel_count : Int) (out : Output),
      cellTotals px w h (geometry w h ow).block_width (geometry w h ow).block_height
          x_char y_char = some (total_brightness, pixel_count)
        ∧ convert_to_ascii (some px) w h ow (some ()) = some out
        ∧ (pixel_count = (geometry w h ow).block_width * (geometry w h ow).block_height
            ∨ pixel_count = 0)
        ∧ ¬ (y_char * (geometry w h ow).block_height + (geometry w h ow).block_height > h)
        ∧ current_block_size h (geometry w h ow).block_height
            (y_char * (geometry w h ow).block_height) = (geometry w h ow).block_height
        ∧ (pixel_count = 0 ↔ w ≤ x_char)
        ∧ (w ≤ x_char → w < ow ∧ (geometry w h ow).block_width = 1
            ∧ (geometry w h ow).block_height = 1
            ∧ out.file[(y_char * (ow + 1) + x_char).toNat]? = some '@') := by
  obtain ⟨hbw, hbh, _, _, _, _, hgt⟩ :=
    geometry_facts px w h ow hv (lt_of_le_of_lt hy0 hy)
  obtain ⟨_, _, _, hyr, hcbh⟩ := cell_ranges_in_image px w h ow hv x_char y_char hx0 hy0 hy
  have hiff := specBlock_ne_empty_iff px w h ow hv x_char y_char hx0 hx hy0 hy
  have hfull := card_sourceBlock_full px w h ow hv x_char y_char hx0 hx hy0 hy
  have hempty : w ≤ x_char → specBlock w h (geometry w h ow).block_width
      (geometry w h ow).block_height x_char y_char = ∅ := by
    intro hge
    by_contra hne
    have := hiff.1 hne
    omega
  have hzero : ((sourceBlock w h (geometry w h ow).block_width
      (geometry w h ow).block_height x_char y_char).card : Int) = 0 ↔ w ≤ x_char := by
    constructor
    · intro hz
      by_contra hlt
      have hpos : 0 < (geometry w h ow).block_width * (geometry w h ow).block_height :=
        mul_pos hbw hbh
      have := hfull (by omega)
      omega
    · intro hge
      rw [sourceBlock_eq_specBlock, hempty hge]
      rfl
  refine ⟨_, _, _, cellTotals_eq px w h _ _ x_char y_char hv.buffer_size
      (le_of_lt hv.width_pos) (le_of_lt hv.height_pos) hsize,
    convert_to_ascii_valid px w h ow hv hsize, ?_, by omega, hcbh, hzero, ?_⟩
  · by_cases hxw : x_char < w
    · exact Or.inl (hfull hxw)
    · exact Or.inr (hzero.2 (by omega))
  · intro hge
    have hlt : w < ow := by omega
    refine ⟨hlt, (hgt hlt).1, (hgt hlt).2, ?_⟩
    rw [specText_getElem? px w h ow _ x_char y_char hx0 hx hy0 hy,
      specMean_empty px w h _ _ x_char y_char (hempty hge), map_grayscale_to_char_zero]

set_option maxRecDepth 100000 in
/-- Witness of the amended C19: the cell `(2, 0)` of a 2x2 image rendered on three columns. -/
theorem C19_witness :
    ValidInput [10, 20, 30, 40] 2 2 3 ∧ (2 : Int) * 2 ≤ INT_MAX
      ∧ (0 : Int) < (geometry 2 2 3).output_height
      ∧ ∃ (total_brightness pixel_count : Int) (out : Output),
        cellTotals [10, 20, 30, 40] 2 2 (geometry 2 2 3).block_width
            (geometry 2 2 3).block_height 2 0 = some (total_brightness, pixel_count)
          ∧ convert_to_ascii (some [10, 20, 30, 40]) 2 2 3 (some ()) = some out
          ∧ (pixel_count = (geometry 2 2 3).block_width * (geometry 2 2 3).block_height
              ∨ pixel_count = 0)
          ∧ ¬ ((0 : Int) * (geometry 2 2 3).block_height + (geometry 2 2 3).block_height > 2)
          ∧ current_block_size 2 (geometry 2 2 3).block_height
              (0 * (geometry 2 2 3).block_height) = (geometry 2 2 3).block_height
          ∧ (pixel_count = 0 ↔ (2 : Int) ≤ 2)
          ∧ ((2 : Int) ≤ 2 → (2 : Int) < 3 ∧ (geometry 2 2 3).block_width = 1
              ∧ (geometry 2 2 3).block_height = 1
              ∧ out.file[((0 : Int) * (3 + 1) + 2).toNat]? = some '@') :=
  ⟨⟨by decide, by decide, by decide, by decide, by decide, by decide, by decide⟩,
    by decide, by decide,
    C19_blocks_full_or_empty_amended [10, 20, 30, 40] 2 2 3
      ⟨by decide, by decide, by decide, by decide, by decide, by decide, by decide⟩
      (by decide) 2 0 (by decide) (by decide)
      (by decide) (by decide)⟩

/-- C20: for every integer `v`, `map_grayscale_to_char v` selects the last palette index
12, the space, exactly when `v ≥ 255`; and every palette index `k` in `[0, 12]` is
selected for some `u` in `[0, 255]`. -/
theorem C20_last_glyph_and_reachability (v k : Int) (hk0 : 0 ≤ k) (hk : k ≤ 12) :
    (palette_index v = 12 ↔ 255 ≤ v)
      ∧ ascii_palette[12]? = some ' ' ∧ ascii_palette.length = 13
      ∧ (255 ≤ v → map_grayscale_to_char v = ' ')
      ∧ ∃ u : Int, 0 ≤ u ∧ u ≤ 255 ∧ palette_index u = k
          ∧ ascii_palette[k.toNat]? = some (map_grayscale_to_char u) := by
  have hlast : palette_index v = 12 ↔ 255 ≤ v := by
    rw [palette_index_eq]
    unfold clamp255
    omega
  refine ⟨hlast, by decide, by decide, ?_, (255 * k + 11) / 12, by omega, by omega, ?_⟩
  · intro hv
    have h1 := palette_getElem?_index v
    rw [hlast.2 hv] at h1
    have h2 : ascii_palette[(12 : Int).toNat]? = some ' ' := by decide
    rw [h2] at h1
    exact (Option.some.inj h1).symm
  · have hidx : palette_index ((255 * k + 11) / 12) = k := by
      rw [palette_index_eq]
      unfold clamp255
      omega
    have hchar := palette_getElem?_index ((255 * k + 11) / 12)
    rw [hidx] at hchar
    exact ⟨hidx, hchar⟩

/-- Witness of C20: the value 300 and the palette index 5. -/
theorem C20_witness :
    (0 : Int) ≤ 5 ∧ (5 : Int) ≤ 12
      ∧ (palette_index 300 = 12 ↔ (255 : Int) ≤ 300)
      ∧ ascii_palette[12]? = some ' ' ∧ ascii_palette.length = 13
      ∧ ((255 : Int) ≤ 300 → map_grayscale_to_char 300 = ' ')
      ∧ ∃ u : Int, 0 ≤ u ∧ u ≤ 255 ∧ palette_index u = 5
          ∧ ascii_palette[(5 : Int).toNat]? = some (map_grayscale_to_char u) :=
  ⟨by decide, by decide, C20_last_glyph_and_reachability 300 5 (by decide) (by decide)⟩

end ImageToAscii
